import Mathlib

/-!
Verification of the rideshare-ledger repository.

This file gives a shallow embedding, in exact rational arithmetic, of the
program's core computations and proves or refutes the frozen claims about
them:

* the weighted trip-split with rounding-drift correction
  (`backend/server.js` POST /entries, `frontend/src/App.jsx` computedPreview);
* the month-balance computation and greedy settlement suggestion
  (`frontend/src/App.jsx` computeMonthBalances / suggestTransfers);
* the observed US federal holiday calendar (`backend/server.js`);
* the entry/rider upsert against the sheet store, in both backend variants
  (the plain `backend/server.js` and the group-scoped variant).

Money is modelled as ℚ: the JavaScript source computes on IEEE doubles but
re-rounds every persisted or compared value to two decimals with
`round2(x) = Math.round(x*100)/100`, which we embed exactly as
`⌊100·x + 1/2⌋ / 100` (JavaScript `Math.round` is floor of x+1/2).
Sheet cells hold either a string or the decimal rendering of a number; we
model a cell as `Cell.str s` or `Cell.num q`.
-/

/-- JS `round2(x) = Math.round(Number(x)*100)/100`, with `Math.round y = ⌊y+0.5⌋`. -/
def round2 (x : ℚ) : ℚ := ((⌊x * 100 + 1/2⌋ : ℤ) : ℚ) / 100

/-- A value that is a whole number of cents. Every value the program stores
has been produced by `round2` and hence satisfies this. -/
def isCent (x : ℚ) : Prop := ∃ k : ℤ, x = (k : ℚ) / 100

/-! ### Trip split engine (server.js lines 441-468, App.jsx computedPreview) -/

/-- `unitsForTrip` from server.js: one_way → 1, two_way → 2, else 0. -/
def unitsForTrip (t : String) : ℕ :=
  if t = "one_way" then 1 else if t = "two_way" then 2 else 0

/-- A rider as sent in the upsert request body: `{member_id, trip_type}`. -/
structure ReqRider where
  member_id : String
  trip_type : String
deriving DecidableEq

/-- `total_units = riderUnits.reduce((s, r) => s + r.units, 0)`. -/
def totalUnits (riders : List ReqRider) : ℕ :=
  (riders.map (fun r => unitsForTrip r.trip_type)).sum

/-- A computed rider charge row (the `computed` array in server.js). -/
structure RiderCharge where
  member_id : String
  trip_type : String
  units : ℕ
  charge : ℚ
deriving DecidableEq

/-- The pre-drift charges:
`computed = riderUnits.map(r => ({...r, charge: round2(day_total_used * (r.units / total_units))}))`. -/
def preCharges (T : ℚ) (riders : List ReqRider) : List RiderCharge :=
  riders.map (fun r =>
    ⟨r.member_id, r.trip_type, unitsForTrip r.trip_type,
      round2 (T * ((unitsForTrip r.trip_type : ℚ) / (totalUnits riders : ℚ)))⟩)

/-- `computed.reduce((s, r) => s + r.charge, 0)`. -/
def chargeSum (l : List RiderCharge) : ℚ := (l.map RiderCharge.charge).sum

/-- `computed.findIndex(x => x.member_id === driver_id)` followed by the
in-place update `computed[i].charge = round2(computed[i].charge + drift)`:
the first rider carrying the driver's id gets the drift; if the driver is
absent nothing changes. -/
def applyDrift (driver_id : String) (dr : ℚ) : List RiderCharge → List RiderCharge
  | [] => []
  | r :: rs =>
    if r.member_id = driver_id then { r with charge := round2 (r.charge + dr) } :: rs
    else r :: applyDrift driver_id dr rs

/-- The drift `round2(day_total_used - sumCharges)` of server.js line 462. -/
def splitDrift (T : ℚ) (riders : List ReqRider) : ℚ :=
  round2 (T - chargeSum (preCharges T riders))

/-- The final charge list: drift of magnitude at least one cent is added,
wholly, to the driver's charge (server.js lines 460-466). -/
def finalCharges (T : ℚ) (driver_id : String) (riders : List ReqRider) : List RiderCharge :=
  if 1/100 ≤ |splitDrift T riders| then applyDrift driver_id (splitDrift T riders) (preCharges T riders)
  else preCharges T riders

/-- `total_amount = round2(computed.reduce((s, r) => s + r.charge, 0))`. -/
def splitTotalAmount (T : ℚ) (driver_id : String) (riders : List ReqRider) : ℚ :=
  round2 (chargeSum (finalCharges T driver_id riders))

/-! ### Month balances (App.jsx computeMonthBalances, lines 58-77) -/

/-- A rider of a stored entry as read back by the frontend. -/
structure EntryRider where
  member_id : String
  charge : ℚ
deriving DecidableEq

/-- A stored day entry as read back by the frontend (fields used by
`computeMonthBalances`). -/
structure MonthEntry where
  driver_id : String
  total_amount : ℚ
  riders : List EntryRider
deriving DecidableEq

/-- JS object write `balances[k] = v`: replace the value under an existing
key, or add the key at the end (JS objects keep insertion order). -/
def alSet (b : List (String × ℚ)) (k : String) (v : ℚ) : List (String × ℚ) :=
  if b.any (fun p => decide (p.1 = k)) then b.map (fun p => if p.1 = k then (k, v) else p)
  else b ++ [(k, v)]

/-- JS object read `balances[k] || 0`. -/
def alGet (b : List (String × ℚ)) (k : String) : ℚ :=
  ((b.find? (fun p => decide (p.1 = k))).map Prod.snd).getD 0

/-- One iteration of the entry loop of `computeMonthBalances`: entries whose
`total_amount` coerces to 0 are skipped wholesale (`if (!total) continue`). -/
def applyEntryBal (b : List (String × ℚ)) (e : MonthEntry) : List (String × ℚ) :=
  if e.total_amount = 0 then b
  else
    let b1 := alSet b e.driver_id (alGet b e.driver_id + e.total_amount)
    e.riders.foldl (fun acc r => alSet acc r.member_id (alGet acc r.member_id - r.charge)) b1

/-- `computeMonthBalances(members, entries)` of App.jsx: zero every member,
fold the entries, then round every balance to cents. -/
def computeMonthBalances (members : List String) (entries : List MonthEntry) :
    List (String × ℚ) :=
  ((entries.foldl applyEntryBal (members.foldl (fun acc m => alSet acc m 0) [])).map
    (fun p => (p.1, round2 p.2)))

/-! ### Greedy settlement (App.jsx suggestTransfers, lines 79-111) -/

/-- A suggested settle-up transfer `{from, to, amount}` (field names
`tfrom`/`tto` since `from` is reserved in Lean). -/
structure Transfer where
  tfrom : String
  tto : String
  amount : ℚ
deriving DecidableEq

/-- `creditors`: entries whose rounded balance exceeds one cent, paired with
that rounded balance. -/
def creditorsOf (balances : List (String × ℚ)) : List (String × ℚ) :=
  balances.filterMap (fun p => if 1/100 < round2 p.2 then some (p.1, round2 p.2) else none)

/-- `debtors`: entries whose rounded balance is below minus one cent, stored
as the (positive) amount owed. -/
def debtorsOf (balances : List (String × ℚ)) : List (String × ℚ) :=
  balances.filterMap (fun p => if round2 p.2 < -(1/100) then some (p.1, -(round2 p.2)) else none)

/-- `xs.sort((a, b) => b[1] - a[1])`: stable sort, descending by amount. -/
def sortDescAmount (l : List (String × ℚ)) : List (String × ℚ) :=
  List.insertionSort (fun a b => b.2 < a.2) l

/-- The inner life of the `while` loop of `suggestTransfers` for one debtor:
transfer `x = min(debAmt, creAmt)`; a party whose rounded remainder drops to
at most one cent is advanced past.  Returns the transfers emitted while this
debtor was current, and the creditor list as left behind. -/
def runDebtor (dId : String) (dAmt : ℚ) : List (String × ℚ) → List Transfer × List (String × ℚ)
  | [] => ([], [])
  | (cId, cAmt) :: cs =>
    if dAmt ≤ cAmt then
      ([⟨dId, cId, round2 dAmt⟩],
        if round2 (cAmt - dAmt) ≤ 1/100 then cs else (cId, round2 (cAmt - dAmt)) :: cs)
    else
      if round2 (dAmt - cAmt) ≤ 1/100 then ([⟨dId, cId, round2 cAmt⟩], cs)
      else
        (⟨dId, cId, round2 cAmt⟩ :: (runDebtor dId (round2 (dAmt - cAmt)) cs).1,
          (runDebtor dId (round2 (dAmt - cAmt)) cs).2)

/-- The full `while (i < debtors.length && j < creditors.length)` loop. -/
def greedyLoop : List (String × ℚ) → List (String × ℚ) → List Transfer
  | [], _ => []
  | (dId, dAmt) :: ds, cs =>
    (runDebtor dId dAmt cs).1 ++ greedyLoop ds (runDebtor dId dAmt cs).2

/-- `suggestTransfers(balances)` of App.jsx. -/
def suggestTransfers (balances : List (String × ℚ)) : List Transfer :=
  greedyLoop (sortDescAmount (debtorsOf balances)) (sortDescAmount (creditorsOf balances))

/-- Total amount member `k` pays under a transfer list (k as `from`). -/
def paidFrom (ts : List Transfer) (k : String) : ℚ :=
  (ts.map (fun t => if t.tfrom = k then t.amount else 0)).sum

/-- Total amount member `k` receives under a transfer list (k as `to`). -/
def paidTo (ts : List Transfer) (k : String) : ℚ :=
  (ts.map (fun t => if t.tto = k then t.amount else 0)).sum

/-- Member `k`'s balance after replaying every suggested transfer against the
original balances: the `from` party's balance goes up by the amount, the `to`
party's goes down. -/
def replayedBalance (bs : List (String × ℚ)) (k : String) : ℚ :=
  alGet bs k + paidFrom (suggestTransfers bs) k - paidTo (suggestTransfers bs) k

/-- The balance entries left out of the greedy settlement: the rounded value is
neither above one cent nor below minus one cent. -/
def settledOf (bs : List (String × ℚ)) : List (String × ℚ) :=
  bs.filter (fun p => decide (-(1/100) ≤ round2 p.2 ∧ round2 p.2 ≤ 1/100))

/-- Sum of the amounts in a debtor/creditor list. -/
def amountSum (l : List (String × ℚ)) : ℚ := (l.map Prod.snd).sum

/-- Total unpaid debt remaining over a debtor list after a transfer list. -/
def residualD (ts : List Transfer) (l : List (String × ℚ)) : ℚ :=
  (l.map (fun p => p.2 - paidFrom ts p.1)).sum

/-- Total uncollected credit remaining over a creditor list after a transfer list. -/
def residualC (ts : List Transfer) (l : List (String × ℚ)) : ℚ :=
  (l.map (fun p => p.2 - paidTo ts p.1)).sum

/-! ### Observed-holiday calendar (server.js lines 84-135)

JavaScript `Date` values are modelled as the whole number of days since
1970-01-01 (the time-of-day components play no role in the source).  The
year/month/day conversions below are the standard civil-from-days /
days-from-civil algorithms, using floor division so they are valid for
all integer inputs. -/

/-- Proleptic Gregorian (year, month 1-12, day) → days since 1970-01-01. -/
def daysFromCivil (y m d : ℤ) : ℤ :=
  let y1 := if m ≤ 2 then y - 1 else y
  let era := y1.ediv 400
  let yoe := y1 - era * 400
  let mp := (m + 9).emod 12
  let doy := (153 * mp + 2).ediv 5 + d - 1
  let doe := yoe * 365 + yoe.ediv 4 - yoe.ediv 100 + doy
  era * 146097 + doe - 719468

/-- Days since 1970-01-01 → (year, month 1-12, day). -/
def civilFromDays (z0 : ℤ) : ℤ × ℤ × ℤ :=
  let z := z0 + 719468
  let era := z.ediv 146097
  let doe := z - era * 146097
  let yoe := (doe - doe.ediv 1460 + doe.ediv 36524 - doe.ediv 146096).ediv 365
  let doy := doe - (365 * yoe + yoe.ediv 4 - yoe.ediv 100)
  let mp := (5 * doy + 2).ediv 153
  let d := doy - (153 * mp + 2).ediv 5 + 1
  let m := mp + (if mp < 10 then 3 else -9)
  (yoe + era * 400 + (if m ≤ 2 then 1 else 0), m, d)

/-- `new Date(year, monthIdx0, day)`: month and day overflow in either
direction is normalised, as JS does. -/
def mkDate (y m0 d : ℤ) : ℤ :=
  let months := y * 12 + m0
  daysFromCivil (months.ediv 12) (months.emod 12 + 1) 1 + (d - 1)

/-- `Date.prototype.getDay`: 0 = Sunday .. 6 = Saturday
(1970-01-01 was a Thursday, day 4). -/
def getDay (z : ℤ) : ℤ := (z + 4) % 7

/-- `Date.prototype.getDate` (day of month). -/
def getDate (z : ℤ) : ℤ := (civilFromDays z).2.2

/-- `pad2(n) = String(n).padStart(2, "0")`. -/
def pad2 (n : ℤ) : String :=
  let s := toString n
  if s.length < 2 then "0" ++ s else s

/-- `fmtDate(d)`: the `YYYY-MM-DD` rendering of a date. -/
def fmtDate (z : ℤ) : String :=
  toString (civilFromDays z).1 ++ "-" ++ pad2 (civilFromDays z).2.1 ++ "-" ++
    pad2 (civilFromDays z).2.2

/-- `nthWeekdayOfMonth(year, monthIdx0, weekday0Sun, nth)` from server.js. -/
def nthWeekdayOfMonth (y m0 w nth : ℤ) : ℤ :=
  let first := mkDate y m0 1
  let offset := (w - getDay first + 7).emod 7
  mkDate y m0 (1 + offset + (nth - 1) * 7)

/-- `lastWeekdayOfMonth(year, monthIdx0, weekday0Sun)` from server.js. -/
def lastWeekdayOfMonth (y m0 w : ℤ) : ℤ :=
  let last := mkDate y (m0 + 1) 0
  let offset := (getDay last - w + 7).emod 7
  mkDate y m0 (getDate last - offset)

/-- `observedFixedDateHoliday(year, monthIdx0, day)`: Saturday observes the
preceding Friday, Sunday the following Monday (`setDate(getDate() ± 1)` is a
one-day shift). -/
def observedFixedDateHoliday (y m0 d : ℤ) : ℤ :=
  let z := mkDate y m0 d
  if getDay z = 6 then z - 1
  else if getDay z = 0 then z + 1
  else z

/-- `usFederalHolidaysObservedForYear(year)` from server.js, as
(date string, name) pairs. -/
def usFederalHolidaysObservedForYear (y : ℤ) : List (String × String) :=
  [(fmtDate (observedFixedDateHoliday y 0 1), "New Year\x27s Day"),
   (fmtDate (nthWeekdayOfMonth y 0 1 3), "MLK Day"),
   (fmtDate (nthWeekdayOfMonth y 1 1 3), "Presidents\x27s Day"),
   (fmtDate (lastWeekdayOfMonth y 4 1), "Memorial Day"),
   (fmtDate (observedFixedDateHoliday y 5 19), "Juneteenth Day"),
   (fmtDate (observedFixedDateHoliday y 6 4), "Independence Day"),
   (fmtDate (nthWeekdayOfMonth y 8 1 1), "Labor Day"),
   (fmtDate (nthWeekdayOfMonth y 9 1 2), "Columbus Day"),
   (fmtDate (observedFixedDateHoliday y 10 11), "Veterans Day"),
   (fmtDate (nthWeekdayOfMonth y 10 4 4), "Thanksgiving Day"),
   (fmtDate (observedFixedDateHoliday y 11 25), "Christmas Day")]

/-! ### Entry upsert against the sheet store (server.js POST /entries)

A sheet is a list of rows; a row is a list of cells.  `setValues` over the
range `A1:X<n>` overwrites exactly the first `n` rows and leaves any rows
beyond untouched, which the model reproduces (`new ++ old.drop new.length`);
`appendValues` appends after the last row. -/

/-- A sheet cell: either a string or (the decimal rendering of) a number. -/
inductive Cell where
  | str (s : String)
  | num (q : ℚ)
deriving DecidableEq

/-- A sheet row. -/
abbrev Row := List Cell

/-- JS `r[i] ?? ""`. -/
def cellAt (r : Row) (i : ℕ) : Cell := (r.get? i).getD (Cell.str "")

/-- JS `String(cell)`.  A numeric cell renders as a decimal numeral, which
can never equal the dash-separated `YYYY-MM-DD` strings this program compares
against; the `#`-prefixed marker used here has the same property. -/
def cellToStr : Cell → String
  | .str s => s
  | .num q => "#" ++ toString q.num

/-- First index satisfying `p` (JS `findIndex`, restricted to a sublist). -/
def findIdx1 {α : Type} (p : α → Bool) : List α → Option ℕ
  | [] => none
  | x :: xs => if p x then some 0 else (findIdx1 p xs).map (· + 1)

/-- The `day_entries` header row written by server.js. -/
def entryHeaderRow : Row :=
  [.str "entry_id", .str "date", .str "driver_id", .str "day_type",
   .str "day_total_used", .str "total_amount", .str "notes", .str "created_at"]

/-- The `day_riders` header row written by server.js. -/
def riderHeaderRow : Row :=
  [.str "entry_id", .str "member_id", .str "trip_type", .str "units", .str "charge"]

/-- The `day_entries` table after the upsert's entry write (server.js lines
471-492): `findIndex` with `i > 0` looks for the date among the rows after
row 0, replaces that row in place, and otherwise appends to the sheet.
When the sheet is empty the source searches the local `[entryHeader]`
placeholder, which has no rows after row 0, so the search misses and the
data row is appended to the still-empty sheet without a header. -/
def entriesAfter (entries : List Row) (date : String) (row : Row) : List Row :=
  match entries with
  | [] => entries ++ [row]
  | h0 :: t =>
    match findIdx1 (fun r => decide (cellToStr (cellAt r 1) = date)) t with
    | some i => h0 :: t.set i row
    | none => (h0 :: t) ++ [row]

/-- The `kept` array of server.js lines 494-501: the header, the data rows
whose `entry_id` column does not match the date, and the new computed rows. -/
def keptRiders (riders : List Row) (date : String) (newRows : List Row) : List Row :=
  riderHeaderRow ::
    (((if riders = [] then [riderHeaderRow] else riders).drop 1).filter
      (fun r => decide (¬ cellToStr (cellAt r 0) = date))) ++ newRows

/-- The `day_riders` table after the upsert's rider write (server.js line
502): `setValues` over the range `A1:E<kept.length>` writes exactly the kept
rows — rows of the old sheet beyond that length survive untouched. -/
def ridersAfter (riders : List Row) (date : String) (newRows : List Row) : List Row :=
  keptRiders riders date newRows ++ riders.drop (keptRiders riders date newRows).length

/-- A member as the plain backend reads it from the members sheet (the
fields the upsert uses). -/
structure MemberR where
  member_id : String
  one_way_total : ℚ
  two_way_total : ℚ
deriving DecidableEq

/-- The sheet store visible to the plain backend's upsert. -/
structure StoreS where
  members : List MemberR
  entries : List Row
  riders : List Row
deriving DecidableEq

/-- `riders.map(...)` of server.js lines 441-450: the first rider with a
missing `member_id` or an invalid `trip_type` aborts the request.  No
membership lookup is performed in this variant. -/
def validateRidersS : List ReqRider → Option String
  | [] => none
  | x :: rest =>
    if x.member_id = "" then some "Missing member_id in riders"
    else if x.trip_type = "one_way" ∨ x.trip_type = "two_way" then validateRidersS rest
    else some "riders.trip_type must be one_way or two_way"

/-- The upsert request body. -/
structure Req where
  date : String
  driver_id : String
  day_type : String
  riders : List ReqRider
  notes : String
deriving DecidableEq

/-- `/^\d{4}-\d{2}-\d{2}$/.test(date)`. -/
def isDateFormat (s : String) : Bool :=
  match s.toList with
  | [y1, y2, y3, y4, s1, m1, m2, s2, d1, d2] =>
    y1.isDigit && y2.isDigit && y3.isDigit && y4.isDigit && s1 == '-' &&
      m1.isDigit && m2.isDigit && s2 == '-' && d1.isDigit && d2.isDigit
  | _ => false

/-- The validation and rate-resolution phase of server.js POST /entries
(lines 408-453): every check precedes every write, and a failure returns the
4xx/5xx response without touching the store. -/
def validateReq (members : List MemberR) (rq : Req) : Except String ℚ :=
  if ¬ isDateFormat rq.date then .error "date required as YYYY-MM-DD"
  else if rq.driver_id = "" then .error "driver_id required"
  else if ¬ (rq.day_type = "one_way" ∨ rq.day_type = "two_way") then
    .error "day_type must be one_way or two_way"
  else if rq.riders = [] then .error "riders must be a non-empty array"
  else if ¬ rq.riders.any (fun x => decide (x.member_id = rq.driver_id)) then
    .error "Driver must be included in riders"
  else if members = [] then .error "members sheet empty"
  else
    match members.find? (fun m => decide (m.member_id = rq.driver_id)) with
    | none => .error "Driver not found in members"
    | some driverRow =>
      let day_total_used :=
        if rq.day_type = "one_way" then driverRow.one_way_total else driverRow.two_way_total
      if day_total_used ≤ 0 then .error "Driver rates not set (one_way_total/two_way_total)"
      else
        match validateRidersS rq.riders with
        | some msg => .error msg
        | none =>
          if totalUnits rq.riders = 0 then .error "No valid riders/units"
          else .ok day_total_used

/-- The stored entry row `[entry_id, date, driver_id, day_type,
day_total_used, total_amount, notes, created_at]` with `entry_id = date`. -/
def entryRowOf (rq : Req) (T total : ℚ) (created_at : String) : Row :=
  [.str rq.date, .str rq.date, .str rq.driver_id, .str rq.day_type,
   .num T, .num total, .str rq.notes, .str created_at]

/-- The stored rider row `[entry_id, member_id, trip_type, units, charge]`. -/
def riderRowOf (date : String) (c : RiderCharge) : Row :=
  [.str date, .str c.member_id, .str c.trip_type, .num (c.units : ℚ), .num c.charge]

/-- server.js POST /entries: validate, split, then write the entry row and
replace-and-append the rider rows.  `created_at` (`new Date().toISOString()`)
is passed explicitly since it is the one ambient input. -/
def upsertEntry (st : StoreS) (rq : Req) (created_at : String) :
    Except String (StoreS × Row) :=
  match validateReq st.members rq with
  | .error e => .error e
  | .ok T =>
    let computed := finalCharges T rq.driver_id rq.riders
    let total_amount := round2 (chargeSum computed)
    let entryRow := entryRowOf rq T total_amount created_at
    .ok (⟨st.members, entriesAfter st.entries rq.date entryRow,
          ridersAfter st.riders rq.date (computed.map (riderRowOf rq.date))⟩, entryRow)

/-! ### The group-scoped backend variant's upsert (the second server.js
variant, group columns appended).  Only the parts that decide claim C8 are
needed: its validation of rider membership happens before any write. -/

/-- A member row of the group-scoped variant. -/
structure MemberG where
  member_id : String
  one_way_total : ℚ
  two_way_total : ℚ
  group_id : String
deriving DecidableEq

/-- The `memberMap` of the group-scoped variant: rows with an empty
`member_id` are skipped, later rows win (JS `Map.set`). -/
def memberMapGet (ms : List MemberG) (k : String) : Option MemberG :=
  if k = "" then none else (ms.filter (fun m => decide (m.member_id = k))).getLast?

/-- The per-rider validation loop of the group-scoped variant (lines
451-461): unknown member, wrong group, then trip type, first failure wins. -/
def validateRidersG (gid : String) (ms : List MemberG) : List ReqRider → Option String
  | [] => none
  | rr :: rest =>
    match memberMapGet ms rr.member_id with
    | none => some ("Unknown rider member_id: " ++ rr.member_id)
    | some row =>
      if ¬ (row.group_id = gid) then some ("Rider not in this group: " ++ rr.member_id)
      else if rr.trip_type = "one_way" ∨ rr.trip_type = "two_way" then
        validateRidersG gid ms rest
      else some "riders.trip_type must be one_way or two_way"

/-- The validation phase of the group-scoped variant's POST /entries (lines
411-480), in source order; all writes come after it. -/
def validateReqG (gid : String) (ms : List MemberG) (rq : Req) : Except String ℚ :=
  if ¬ isDateFormat rq.date then .error "date required as YYYY-MM-DD"
  else if rq.driver_id = "" then .error "driver_id required"
  else if ¬ (rq.day_type = "one_way" ∨ rq.day_type = "two_way") then
    .error "day_type must be one_way or two_way"
  else if rq.riders = [] then .error "riders must be a non-empty array"
  else if ¬ rq.riders.any (fun x => decide (x.member_id = rq.driver_id)) then
    .error "Driver must be included in riders"
  else if ms = [] then .error "members sheet empty"
  else
    match memberMapGet ms rq.driver_id with
    | none => .error "Driver not found in members"
    | some driverRow =>
      if ¬ (driverRow.group_id = gid) then .error "Driver not in this group"
      else
        match validateRidersG gid ms rq.riders with
        | some msg => .error msg
        | none =>
          let day_total_used :=
            if rq.day_type = "one_way" then driverRow.one_way_total else driverRow.two_way_total
          if day_total_used ≤ 0 then .error "Driver rates not set (one_way_total/two_way_total)"
          else if totalUnits rq.riders = 0 then .error "No valid riders/units"
          else .ok day_total_used

/-- The sheet store of the group-scoped variant. -/
structure StoreG where
  members : List MemberG
  entries : List Row
  riders : List Row
deriving DecidableEq

/-- Entry row of the group-scoped variant (group_id appended). -/
def entryRowOfG (rq : Req) (T total : ℚ) (created_at gid : String) : Row :=
  entryRowOf rq T total created_at ++ [.str gid]

/-- Rider row of the group-scoped variant (group_id appended). -/
def riderRowOfG (gid date : String) (c : RiderCharge) : Row :=
  riderRowOf date c ++ [.str gid]

/-- The group-scoped `day_entries` write: match on date and group among the
rows after row 0 (the empty-sheet placeholder has no such rows). -/
def entriesAfterG (entries : List Row) (date gid : String) (row : Row) : List Row :=
  match entries with
  | [] => entries ++ [row]
  | h0 :: t =>
    match findIdx1
        (fun r => decide (cellToStr (cellAt r 1) = date ∧ cellToStr (cellAt r 8) = gid)) t with
    | some i => h0 :: t.set i row
    | none => (h0 :: t) ++ [row]

/-- The group-scoped `day_riders` write: keep rows not matching
(entry_id, group), append new rows, overwrite `A1:Z<kept.length>`. -/
def ridersAfterG (riders : List Row) (date gid : String) (newRows : List Row) : List Row :=
  let riderData := if riders = [] then [riderHeaderRow ++ [Cell.str "group_id"]] else riders
  let kept := (riderHeaderRow ++ [Cell.str "group_id"]) ::
    ((riderData.drop 1).filter
      (fun r => decide (¬ (cellToStr (cellAt r 0) = date ∧ cellToStr (cellAt r 5) = gid)))) ++
    newRows
  kept ++ riders.drop kept.length

/-- The group-scoped variant's POST /entries. -/
def upsertEntryG (gid : String) (st : StoreG) (rq : Req) (created_at : String) :
    Except String (StoreG × Row) :=
  match validateReqG gid st.members rq with
  | .error e => .error e
  | .ok T =>
    let computed := finalCharges T rq.driver_id rq.riders
    let total_amount := round2 (chargeSum computed)
    let entryRow := entryRowOfG rq T total_amount created_at gid
    .ok (⟨st.members, entriesAfterG st.entries rq.date gid entryRow,
          ridersAfterG st.riders rq.date gid (computed.map (riderRowOfG gid rq.date))⟩,
         entryRow)

/-! ## Rounding and cent lemmas -/

theorem round2_cent (k : ℤ) : round2 ((k : ℚ) / 100) = (k : ℚ) / 100 := by
  unfold round2
  have h : ((k : ℚ) / 100) * 100 + 1/2 = ((k : ℤ) : ℚ) + 1/2 := by push_cast; ring
  rw [h, Int.floor_int_add]
  norm_num

theorem isCent_round2 (x : ℚ) : isCent (round2 x) := ⟨⌊x * 100 + 1/2⌋, rfl⟩

theorem isCent_zero : isCent 0 := ⟨0, by norm_num⟩

theorem isCent_add {x y : ℚ} (hx : isCent x) (hy : isCent y) : isCent (x + y) := by
  obtain ⟨a, rfl⟩ := hx
  obtain ⟨b, rfl⟩ := hy
  exact ⟨a + b, by push_cast; ring⟩

theorem isCent_neg {x : ℚ} (hx : isCent x) : isCent (-x) := by
  obtain ⟨a, rfl⟩ := hx
  exact ⟨-a, by push_cast; ring⟩

theorem isCent_sub {x y : ℚ} (hx : isCent x) (hy : isCent y) : isCent (x - y) := by
  rw [sub_eq_add_neg]
  exact isCent_add hx (isCent_neg hy)

theorem isCent_sum {l : List ℚ} (h : ∀ x ∈ l, isCent x) : isCent l.sum := by
  induction l with
  | nil => simpa using isCent_zero
  | cons a t ih =>
    rw [List.sum_cons]
    exact isCent_add (h a (by simp)) (ih fun x hx => h x (by simp [hx]))

theorem round2_of_isCent {x : ℚ} (h : isCent x) : round2 x = x := by
  obtain ⟨k, rfl⟩ := h
  exact round2_cent k

theorem round2_add_cent (x : ℚ) {c : ℚ} (hc : isCent c) : round2 (x + c) = round2 x + c := by
  obtain ⟨k, rfl⟩ := hc
  unfold round2
  have h : (x + (k : ℚ) / 100) * 100 + 1/2 = (x * 100 + 1/2) + (k : ℤ) := by push_cast; ring
  rw [h, Int.floor_add_int]
  push_cast
  ring

theorem isCent_eq_zero {c : ℚ} (hc : isCent c) (h : |c| < 1/100) : c = 0 := by
  obtain ⟨k, rfl⟩ := hc
  have hk : k = 0 := by
    by_contra hk0
    have h1 : (1 : ℤ) ≤ |k| := Int.one_le_abs (by omega)
    have h2 : (1 : ℚ) ≤ |(k : ℚ)| := by exact_mod_cast h1
    rw [abs_div] at h
    have h3 : |(100 : ℚ)| = 100 := by norm_num
    rw [h3] at h
    nlinarith [abs_nonneg (k : ℚ)]
  subst hk
  norm_num

theorem sub_round2_lt (x : ℚ) : x - round2 x < 1/200 := by
  unfold round2
  have h := Int.lt_floor_add_one (x * 100 + 1/2)
  have h2 : ((⌊x * 100 + 1/2⌋ : ℤ) : ℚ) > x * 100 - 1/2 := by linarith
  have h100 : (0:ℚ) < 100 := by norm_num
  rw [gt_iff_lt, ← div_lt_div_iff_of_pos_right (c := 100) h100] at h2
  linarith [h2]

theorem neg_le_sub_round2 (x : ℚ) : -(1/200) ≤ x - round2 x := by
  unfold round2
  have h := Int.floor_le (x * 100 + 1/2)
  have h100 : (0:ℚ) < 100 := by norm_num
  have h2 : ((⌊x * 100 + 1/2⌋ : ℤ) : ℚ) / 100 ≤ (x * 100 + 1/2) / 100 := by
    exact div_le_div_of_nonneg_right h (by norm_num) |>.trans_eq rfl
  linarith

/-! ## List helper lemmas -/

theorem sum_map_sub {α : Type} (l : List α) (f g : α → ℚ) :
    (l.map (fun a => f a - g a)).sum = (l.map f).sum - (l.map g).sum := by
  induction l with
  | nil => simp
  | cons a t ih => simp [ih]; ring

theorem sum_map_add {α : Type} (l : List α) (f g : α → ℚ) :
    (l.map (fun a => f a + g a)).sum = (l.map f).sum + (l.map g).sum := by
  induction l with
  | nil => simp
  | cons a t ih => simp [ih]; ring

/-! ## Split engine lemmas -/

theorem charge_mem_preCharges {T : ℚ} {riders : List ReqRider} {c : RiderCharge}
    (h : c ∈ preCharges T riders) : isCent c.charge := by
  unfold preCharges at h
  obtain ⟨r, _, rfl⟩ := List.mem_map.1 h
  exact isCent_round2 _

theorem isCent_chargeSum_pre (T : ℚ) (riders : List ReqRider) :
    isCent (chargeSum (preCharges T riders)) := by
  unfold chargeSum
  refine isCent_sum fun x hx => ?_
  obtain ⟨c, hc, rfl⟩ := List.mem_map.1 hx
  exact charge_mem_preCharges hc

theorem applyDrift_chargeSum {d : String} {dr : ℚ} {l : List RiderCharge}
    (hmem : ∃ r ∈ l, r.member_id = d)
    (hc : ∀ r ∈ l, isCent r.charge) (hdr : isCent dr) :
    chargeSum (applyDrift d dr l) = chargeSum l + dr := by
  induction l with
  | nil => simp at hmem
  | cons r rs ih =>
    by_cases hr : r.member_id = d
    · have hcent : isCent (r.charge + dr) := isCent_add (hc r (by simp)) hdr
      simp only [applyDrift, if_pos hr, chargeSum, List.map_cons, List.sum_cons,
        round2_of_isCent hcent]
      ring
    · obtain ⟨x, hx, hxd⟩ := hmem
      rcases List.mem_cons.1 hx with rfl | hx'
      · exact absurd hxd hr
      · have := ih ⟨x, hx', hxd⟩ (fun a ha => hc a (by simp [ha]))
        simp only [applyDrift, if_neg hr, chargeSum, List.map_cons, List.sum_cons] at this ⊢
        rw [show ((List.map RiderCharge.charge (applyDrift d dr rs)).sum =
          (List.map RiderCharge.charge rs).sum + dr) from this]
        ring

theorem splitDrift_eq (T : ℚ) (riders : List ReqRider) :
    splitDrift T riders = round2 T - chargeSum (preCharges T riders) := by
  obtain ⟨k, hk⟩ := isCent_chargeSum_pre T riders
  unfold splitDrift
  rw [hk]
  have h : T - (k : ℚ) / 100 = T + ((-k : ℤ) : ℚ) / 100 := by push_cast; ring
  rw [h, round2_add_cent T ⟨-k, rfl⟩]
  push_cast
  ring

theorem isCent_splitDrift (T : ℚ) (riders : List ReqRider) : isCent (splitDrift T riders) :=
  isCent_round2 _

/-- C1: Split conservation — for every positive day total and non-empty rider
list containing the driver with valid trip types, the final charges sum to
`round2 dayTotal` exactly, and the returned `total_amount` equals
`round2 dayTotal` to the cent. -/
theorem split_conservation (T : ℚ) (driver_id : String) (riders : List ReqRider)
    (hT : 0 < T) (hne : riders ≠ [])
    (hdrv : ∃ r ∈ riders, r.member_id = driver_id)
    (htrip : ∀ r ∈ riders, r.trip_type = "one_way" ∨ r.trip_type = "two_way") :
    chargeSum (finalCharges T driver_id riders) = round2 T ∧
    splitTotalAmount T driver_id riders = round2 T := by
  have hS := isCent_chargeSum_pre T riders
  have hd := splitDrift_eq T riders
  have key : chargeSum (finalCharges T driver_id riders) = round2 T := by
    unfold finalCharges
    by_cases hcase : 1/100 ≤ |splitDrift T riders|
    · rw [if_pos hcase]
      have hmem : ∃ c ∈ preCharges T riders, c.member_id = driver_id := by
        obtain ⟨r, hr, hrd⟩ := hdrv
        exact ⟨⟨r.member_id, r.trip_type, unitsForTrip r.trip_type,
          round2 (T * ((unitsForTrip r.trip_type : ℚ) / (totalUnits riders : ℚ)))⟩,
          List.mem_map.2 ⟨r, hr, rfl⟩, hrd⟩
      rw [applyDrift_chargeSum hmem (fun r hr => charge_mem_preCharges hr)
        (isCent_splitDrift T riders), hd]
      ring
    · rw [if_neg hcase]
      have h0 : splitDrift T riders = 0 :=
        isCent_eq_zero (isCent_splitDrift T riders) (by linarith [abs_nonneg (splitDrift T riders), lt_of_not_le hcase])
      rw [h0] at hd
      linarith [hd]
  refine ⟨key, ?_⟩
  unfold splitTotalAmount
  rw [key]
  exact round2_of_isCent (isCent_round2 T)

/-- C1 witness: the spec's own drift scenario — dayTotal 10 split over three
one-way riders. -/
theorem split_conservation_witness :
    (0 : ℚ) < 10 ∧
    (chargeSum (finalCharges 10 "a" [⟨"a", "one_way"⟩, ⟨"b", "one_way"⟩, ⟨"c", "one_way"⟩]) =
        round2 10 ∧
      splitTotalAmount 10 "a" [⟨"a", "one_way"⟩, ⟨"b", "one_way"⟩, ⟨"c", "one_way"⟩] =
        round2 10) :=
  ⟨by norm_num,
   split_conservation 10 "a" [⟨"a", "one_way"⟩, ⟨"b", "one_way"⟩, ⟨"c", "one_way"⟩]
     (by norm_num) (by simp)
     ⟨⟨"a", "one_way"⟩, by simp⟩
     (by rintro r hr; fin_cases hr <;> simp)⟩

theorem applyDrift_length (d : String) (dr : ℚ) (l : List RiderCharge) :
    (applyDrift d dr l).length = l.length := by
  induction l with
  | nil => rfl
  | cons r rs ih =>
    by_cases hr : r.member_id = d
    · simp [applyDrift, hr]
    · simp [applyDrift, hr, ih]

theorem applyDrift_getElem_ne (d : String) (dr : ℚ) (l : List RiderCharge) (i : ℕ)
    (hi : i < l.length) (hi2 : i < (applyDrift d dr l).length)
    (h : (l[i]).member_id ≠ d) : (applyDrift d dr l)[i] = l[i] := by
  induction l generalizing i with
  | nil => simp at hi
  | cons r rs ih =>
    by_cases hr : r.member_id = d
    · cases i with
      | zero => simp at h; exact absurd hr h
      | succ j => simp [applyDrift, hr] at hi2 ⊢
    · cases i with
      | zero => simp [applyDrift, hr]
      | succ j =>
        have hj : j < rs.length := by simpa using hi
        have hj2 : j < (applyDrift d dr rs).length := by rw [applyDrift_length]; exact hj
        simp only [applyDrift, if_neg hr, List.getElem_cons_succ]
        exact ih j hj hj2 (by simpa using h)

theorem preCharges_length (T : ℚ) (riders : List ReqRider) :
    (preCharges T riders).length = riders.length := by
  simp [preCharges]

theorem finalCharges_length (T : ℚ) (d : String) (riders : List ReqRider) :
    (finalCharges T d riders).length = riders.length := by
  unfold finalCharges
  by_cases h : 1/100 ≤ |splitDrift T riders|
  · rw [if_pos h, applyDrift_length, preCharges_length]
  · rw [if_neg h, preCharges_length]

/-- C3: Split proportionality and drift assignment — each pre-drift charge is
`round2(dayTotal × units / total_units)`; when the drift reaches a cent it is
added to the driver alone, so every non-driver rider keeps the proportional
charge and the sum moves by exactly the drift. -/
theorem split_proportionality (T : ℚ) (driver_id : String) (riders : List ReqRider)
    (hT : 0 < T) (hne : riders ≠ [])
    (hdrv : ∃ r ∈ riders, r.member_id = driver_id)
    (htrip : ∀ r ∈ riders, r.trip_type = "one_way" ∨ r.trip_type = "two_way") :
    (∀ i (hi : i < riders.length) (hi2 : i < (preCharges T riders).length),
        ((preCharges T riders)[i]).charge =
          round2 (T * ((unitsForTrip (riders[i]).trip_type : ℚ) / (totalUnits riders : ℚ)))) ∧
    (1/100 ≤ |splitDrift T riders| →
      (∀ i (hi : i < riders.length) (hi3 : i < (finalCharges T driver_id riders).length),
          (riders[i]).member_id ≠ driver_id →
          ((finalCharges T driver_id riders)[i]).charge =
            round2 (T * ((unitsForTrip (riders[i]).trip_type : ℚ) / (totalUnits riders : ℚ)))) ∧
      chargeSum (finalCharges T driver_id riders) =
        chargeSum (preCharges T riders) + splitDrift T riders) := by
  have pre_i : ∀ i (hi : i < riders.length) (hi2 : i < (preCharges T riders).length),
      ((preCharges T riders)[i]).charge =
        round2 (T * ((unitsForTrip (riders[i]).trip_type : ℚ) / (totalUnits riders : ℚ))) := by
    intro i hi hi2
    simp [preCharges]
  refine ⟨pre_i, fun hdr => ⟨?_, ?_⟩⟩
  · intro i hi hi3 hnd
    have hi2 : i < (preCharges T riders).length := by rwa [preCharges_length]
    have hmem : ((preCharges T riders)[i]).member_id = (riders[i]).member_id := by
      simp [preCharges]
    have heq : (finalCharges T driver_id riders)[i] = (preCharges T riders)[i] := by
      have h4 : i < (applyDrift driver_id (splitDrift T riders) (preCharges T riders)).length := by
        rw [applyDrift_length]; exact hi2
      have := applyDrift_getElem_ne driver_id (splitDrift T riders) (preCharges T riders) i hi2
        h4 (by rw [hmem]; exact hnd)
      simp only [finalCharges, if_pos hdr]
      exact this
    rw [heq]
    exact pre_i i hi hi2
  · have hmem : ∃ c ∈ preCharges T riders, c.member_id = driver_id := by
      obtain ⟨r, hr, hrd⟩ := hdrv
      exact ⟨⟨r.member_id, r.trip_type, unitsForTrip r.trip_type,
        round2 (T * ((unitsForTrip r.trip_type : ℚ) / (totalUnits riders : ℚ)))⟩,
        List.mem_map.2 ⟨r, hr, rfl⟩, hrd⟩
    simp only [finalCharges, if_pos hdr]
    exact applyDrift_chargeSum hmem (fun r hr => charge_mem_preCharges hr)
      (isCent_splitDrift T riders)

/-- C3 witness: dayTotal 10 over three one-way riders produces drift 0.01,
which lands on the driver while rider b keeps round2(10/3). -/
theorem split_proportionality_witness :
    (0 : ℚ) < 10 ∧ 1/100 ≤ |splitDrift 10 [⟨"a", "one_way"⟩, ⟨"b", "one_way"⟩, ⟨"c", "one_way"⟩]| ∧
    chargeSum (finalCharges 10 "a" [⟨"a", "one_way"⟩, ⟨"b", "one_way"⟩, ⟨"c", "one_way"⟩]) =
      chargeSum (preCharges 10 [⟨"a", "one_way"⟩, ⟨"b", "one_way"⟩, ⟨"c", "one_way"⟩]) +
        splitDrift 10 [⟨"a", "one_way"⟩, ⟨"b", "one_way"⟩, ⟨"c", "one_way"⟩] := by
  have hdr : (1:ℚ)/100 ≤ |splitDrift 10 [⟨"a", "one_way"⟩, ⟨"b", "one_way"⟩, ⟨"c", "one_way"⟩]| := by
    norm_num [splitDrift, preCharges, chargeSum, totalUnits, unitsForTrip, round2]
    rw [abs_of_nonneg (by norm_num)]
  refine ⟨by norm_num, hdr, ?_⟩
  exact ((split_proportionality 10 "a" [⟨"a", "one_way"⟩, ⟨"b", "one_way"⟩, ⟨"c", "one_way"⟩]
    (by norm_num) (by simp) ⟨⟨"a", "one_way"⟩, by simp⟩
    (by rintro r hr; fin_cases hr <;> simp)).2 hdr).2

theorem length_le_totalUnits {riders : List ReqRider}
    (h : ∀ r ∈ riders, r.trip_type = "one_way" ∨ r.trip_type = "two_way") :
    riders.length ≤ totalUnits riders := by
  induction riders with
  | nil => simp [totalUnits]
  | cons r rs ih =>
    have hr : 1 ≤ unitsForTrip r.trip_type := by
      rcases h r (by simp) with h1 | h1 <;> simp [unitsForTrip, h1]
    have := ih (fun x hx => h x (by simp [hx]))
    simp only [totalUnits, List.map_cons, List.sum_cons, List.length_cons] at *
    omega

theorem chargeSum_preCharges (T : ℚ) (riders : List ReqRider) :
    chargeSum (preCharges T riders) =
      (riders.map (fun r =>
        round2 (T * ((unitsForTrip r.trip_type : ℚ) / (totalUnits riders : ℚ))))).sum := by
  simp [chargeSum, preCharges, List.map_map, Function.comp_def]

theorem sum_shares_eq (T : ℚ) (riders : List ReqRider)
    (hU : (totalUnits riders : ℚ) ≠ 0) :
    (riders.map (fun r => T * ((unitsForTrip r.trip_type : ℚ) / (totalUnits riders : ℚ)))).sum
      = T := by
  have h1 : riders.map (fun r => T * ((unitsForTrip r.trip_type : ℚ) / (totalUnits riders : ℚ)))
      = riders.map (fun r =>
          (T / (totalUnits riders : ℚ)) * (unitsForTrip r.trip_type : ℚ)) := by
    refine List.map_congr_left fun r _ => ?_
    ring
  have h2 : ∀ rs : List ReqRider,
      (rs.map (fun r => (unitsForTrip r.trip_type : ℚ))).sum = (totalUnits rs : ℚ) := by
    intro rs
    induction rs with
    | nil => simp [totalUnits]
    | cons r t ih =>
      simp only [totalUnits, List.map_cons, List.sum_cons] at ih ⊢
      push_cast
      rw [ih, Nat.cast_list_sum]
  rw [h1, List.sum_map_mul_left, h2]
  exact div_mul_cancel₀ T hU

theorem sum_map_lt_of_forall {α : Type} (l : List α) (g : α → ℚ) (hne : l ≠ [])
    (h : ∀ a ∈ l, g a < 1/200) : (l.map g).sum < l.length * (1/200) := by
  induction l with
  | nil => exact absurd rfl hne
  | cons a t ih =>
    cases t with
    | nil => simpa using h a (by simp)
    | cons b u =>
      have h1 := ih (by simp) (fun x hx => h x (by simp [List.mem_cons] at hx ⊢; tauto))
      have h2 := h a (by simp)
      simp only [List.map_cons, List.sum_cons, List.length_cons] at h1 ⊢
      push_cast at h1 ⊢
      linarith

theorem le_sum_map_of_forall {α : Type} (l : List α) (g : α → ℚ)
    (h : ∀ a ∈ l, -(1/200) ≤ g a) : -(l.length * (1/200)) ≤ (l.map g).sum := by
  induction l with
  | nil => simp
  | cons a t ih =>
    have h1 := ih (fun x hx => h x (by simp [hx]))
    have h2 := h a (by simp)
    simp only [List.map_cons, List.sum_cons, List.length_cons] at h1 ⊢
    push_cast at h1 ⊢
    linarith

/-- C9: Drift bound — the drift the correction step can add to the driver is
strictly less than one cent per rider in absolute value. -/
theorem drift_bound (T : ℚ) (riders : List ReqRider)
    (hT : 0 < T) (hne : riders ≠ [])
    (htrip : ∀ r ∈ riders, r.trip_type = "one_way" ∨ r.trip_type = "two_way") :
    |splitDrift T riders| < (1/100) * riders.length := by
  have hn : 1 ≤ riders.length := List.length_pos.2 hne
  have hU0 : totalUnits riders ≠ 0 := by
    have := length_le_totalUnits htrip
    omega
  have hUQ : (totalUnits riders : ℚ) ≠ 0 := Nat.cast_ne_zero.2 hU0
  set n := riders.length with hn_def
  set x : ReqRider → ℚ :=
    fun r => T * ((unitsForTrip r.trip_type : ℚ) / (totalUnits riders : ℚ)) with hx
  have hE : T - chargeSum (preCharges T riders)
      = (riders.map (fun r => x r - round2 (x r))).sum := by
    rw [sum_map_sub, chargeSum_preCharges, sum_shares_eq T riders hUQ]
  set E := (riders.map (fun r => x r - round2 (x r))).sum with hEdef
  have hupper : E < n * (1/200) :=
    sum_map_lt_of_forall riders _ hne (fun a _ => sub_round2_lt (x a))
  have hlower : -(n * (1/200)) ≤ E :=
    le_sum_map_of_forall riders _ (fun a _ => neg_le_sub_round2 (x a))
  have hdrift : splitDrift T riders = ((⌊E * 100 + 1/2⌋ : ℤ) : ℚ) / 100 := by
    unfold splitDrift round2
    rw [hE]
  set k : ℤ := ⌊E * 100 + 1/2⌋ with hk_def
  have hk1 : (k : ℚ) ≤ E * 100 + 1/2 := Int.floor_le _
  have hk2 : E * 100 + 1/2 < (k : ℚ) + 1 := Int.lt_floor_add_one _
  have hup : (2 * k : ℤ) ≤ (n : ℤ) := by
    have : ((2 * k : ℤ) : ℚ) < (n : ℚ) + 1 := by push_cast; nlinarith
    have h2 : (2 * k : ℤ) < (n : ℤ) + 1 := by exact_mod_cast this
    omega
  have hlo : -(n : ℤ) ≤ (2 * k : ℤ) := by
    have : ((-(n : ℤ) - 1 : ℤ) : ℚ) < ((2 * k : ℤ) : ℚ) := by push_cast; nlinarith
    have h2 : (-(n : ℤ) - 1 : ℤ) < (2 * k : ℤ) := by exact_mod_cast this
    omega
  rw [hdrift]
  rw [abs_div, abs_of_pos (show (0:ℚ) < 100 by norm_num)]
  rw [div_lt_iff₀ (show (0:ℚ) < 100 by norm_num)]
  have habs : |(k : ℚ)| ≤ (n : ℚ) / 2 := by
    rw [abs_le]
    constructor
    · have : ((-(n : ℤ)) : ℚ) ≤ ((2 * k : ℤ) : ℚ) := by exact_mod_cast hlo
      push_cast at this
      linarith
    · have : ((2 * k : ℤ) : ℚ) ≤ ((n : ℤ) : ℚ) := by exact_mod_cast hup
      push_cast at this
      linarith
  have hnpos : (0 : ℚ) < (n : ℚ) := by
    exact_mod_cast Nat.cast_pos.2 (by omega)
  nlinarith

/-- C9 witness: the drift scenario of the spec, three riders, drift 0.01. -/
theorem drift_bound_witness :
    (0 : ℚ) < 10 ∧
    |splitDrift 10 [⟨"a", "one_way"⟩, ⟨"b", "one_way"⟩, ⟨"c", "one_way"⟩]| <
      (1/100) * ([⟨"a", "one_way"⟩, ⟨"b", "one_way"⟩, ⟨"c", "one_way"⟩] : List ReqRider).length :=
  ⟨by norm_num,
   drift_bound 10 [⟨"a", "one_way"⟩, ⟨"b", "one_way"⟩, ⟨"c", "one_way"⟩]
     (by norm_num) (by simp) (by rintro r hr; fin_cases hr <;> simp)⟩

/-! ## Month balance lemmas -/

theorem applyEntryBal_zero (b : List (String × ℚ)) (e : MonthEntry)
    (h : e.total_amount = 0) : applyEntryBal b e = b := by
  simp [applyEntryBal, h]

/-- C10: Zero-total entries are balance no-ops — an entry whose `total_amount`
coerces to 0 contributes neither its driver credit nor any rider charge, for
every member list and entry list. -/
theorem zero_total_noop (members : List String) (es1 es2 : List MonthEntry) (e : MonthEntry)
    (h : e.total_amount = 0) :
    computeMonthBalances members (es1 ++ e :: es2) =
      computeMonthBalances members (es1 ++ es2) := by
  unfold computeMonthBalances
  rw [List.foldl_append, List.foldl_append, List.foldl_cons, applyEntryBal_zero _ _ h]

/-- C10 witness: dropping a zero-total entry leaves the balances unchanged. -/
theorem zero_total_noop_witness :
    (MonthEntry.total_amount ⟨"B", 0, [⟨"A", 5⟩]⟩ = 0) ∧
    computeMonthBalances ["A"] ([] ++ (⟨"B", 0, [⟨"A", 5⟩]⟩ : MonthEntry) :: []) =
      computeMonthBalances ["A"] ([] ++ []) :=
  ⟨rfl, zero_total_noop ["A"] [] [] ⟨"B", 0, [⟨"A", 5⟩]⟩ rfl⟩

theorem alGet_cons (p : String × ℚ) (t : List (String × ℚ)) (k : String) :
    alGet (p :: t) k = if p.1 = k then p.2 else alGet t k := by
  unfold alGet
  by_cases hp : p.1 = k
  · simp [List.find?_cons_of_pos, hp]
  · rw [List.find?_cons_of_neg _ (by simp [hp])]
    simp [hp]

theorem alGet_eq_zero_of_not_any (t : List (String × ℚ)) (k : String)
    (h : ¬ t.any (fun p => decide (p.1 = k)) = true) : alGet t k = 0 := by
  unfold alGet
  have : t.find? (fun p => decide (p.1 = k)) = none := by
    rw [List.find?_eq_none]
    intro p hp hpk
    exact h (List.any_eq_true.2 ⟨p, hp, hpk⟩)
  simp [this]

theorem alSet_sum (b : List (String × ℚ)) (k : String) (v : ℚ)
    (hnd : (b.map Prod.fst).Nodup) :
    ((alSet b k v).map Prod.snd).sum = (b.map Prod.snd).sum + v - alGet b k := by
  induction b with
  | nil => simp [alSet, alGet]
  | cons p t ih =>
    by_cases hp : p.1 = k
    · have hknott : k ∉ t.map Prod.fst := by
        rw [← hp]
        exact (List.nodup_cons.1 (by simpa using hnd)).1
      have hmap : t.map (fun q => if q.1 = k then (k, v) else q) = t := by
        conv_rhs => rw [← List.map_id t]
        refine List.map_congr_left fun q hq => ?_
        have hqk : ¬ q.1 = k := fun hqk => hknott (hqk ▸ List.mem_map_of_mem Prod.fst hq)
        simp [hqk]
      have hany : (p :: t).any (fun p => decide (p.1 = k)) = true :=
        List.any_eq_true.2 ⟨p, by simp, by simp [hp]⟩
      unfold alSet
      rw [if_pos hany, alGet_cons]
      simp [hp, hmap]
      ring
    · rw [alGet_cons, if_neg hp]
      by_cases hany : t.any (fun p => decide (p.1 = k)) = true
      · have hany2 : (p :: t).any (fun p => decide (p.1 = k)) = true := by
          simp [List.any_cons, hany]
        have ih2 := ih (List.Nodup.of_cons (by simpa using hnd))
        unfold alSet at ih2 ⊢
        rw [if_pos hany2, if_pos hany] at *
        simp only [List.map_cons, List.sum_cons, if_neg hp] at *
        rw [ih2]
        ring
      · have hany2 : ¬ (p :: t).any (fun p => decide (p.1 = k)) = true := by
          simp only [List.any_cons, Bool.or_eq_true] at *
          push_neg
          exact ⟨by simp [hp], by simpa using hany⟩
        unfold alSet
        rw [if_neg hany2, alGet_eq_zero_of_not_any t k hany]
        simp
        ring

theorem alSet_mem {b : List (String × ℚ)} {k : String} {v : ℚ} {p : String × ℚ}
    (h : p ∈ alSet b k v) : p ∈ b ∨ p = (k, v) := by
  unfold alSet at h
  by_cases hany : b.any (fun p => decide (p.1 = k)) = true
  · rw [if_pos hany] at h
    obtain ⟨q, hq, hqe⟩ := List.mem_map.1 h
    by_cases hqk : q.1 = k
    · right; rw [← hqe]; simp [hqk]
    · left; rw [← hqe]; simpa [hqk] using hq
  · rw [if_neg hany] at h
    rcases List.mem_append.1 h with h1 | h1
    · exact Or.inl h1
    · right; simpa using h1

theorem alSet_keys_nodup {b : List (String × ℚ)} (k : String) (v : ℚ)
    (hnd : (b.map Prod.fst).Nodup) : ((alSet b k v).map Prod.fst).Nodup := by
  unfold alSet
  by_cases hany : b.any (fun p => decide (p.1 = k)) = true
  · rw [if_pos hany]
    have : (b.map (fun q => if q.1 = k then (k, v) else q)).map Prod.fst = b.map Prod.fst := by
      rw [List.map_map]
      refine List.map_congr_left fun q _ => ?_
      by_cases hqk : q.1 = k
      · simp [hqk]
      · simp [hqk]
    rw [this]
    exact hnd
  · rw [if_neg hany]
    rw [List.map_append]
    have hknotb : k ∉ b.map Prod.fst := by
      intro hk
      obtain ⟨q, hq, hqe⟩ := List.mem_map.1 hk
      exact hany (List.any_eq_true.2 ⟨q, hq, by simp [hqe]⟩)
    simp [List.nodup_append, hnd, hknotb]

theorem isCent_alGet {b : List (String × ℚ)} (k : String)
    (hc : ∀ p ∈ b, isCent p.2) : isCent (alGet b k) := by
  unfold alGet
  cases hfind : b.find? (fun p => decide (p.1 = k)) with
  | none => simpa using isCent_zero
  | some q =>
    have := List.mem_of_find?_eq_some hfind
    simpa using hc q this

theorem alSet_cent (b : List (String × ℚ)) (k : String) (v : ℚ)
    (hc : ∀ p ∈ b, isCent p.2) (hv : isCent v) :
    ∀ p ∈ alSet b k v, isCent p.2 := by
  intro p hp
  rcases alSet_mem hp with h1 | h1
  · exact hc p h1
  · rw [h1]
    exact hv

theorem riderFold_sum (rs : List EntryRider) (acc : List (String × ℚ))
    (hnd : (acc.map Prod.fst).Nodup) (hc : ∀ p ∈ acc, isCent p.2)
    (hrc : ∀ r ∈ rs, isCent r.charge) :
    (((rs.foldl (fun a r => alSet a r.member_id (alGet a r.member_id - r.charge)) acc).map
        Prod.snd).sum = (acc.map Prod.snd).sum - (rs.map EntryRider.charge).sum) ∧
    (((rs.foldl (fun a r => alSet a r.member_id (alGet a r.member_id - r.charge)) acc).map
        Prod.fst).Nodup) ∧
    (∀ p ∈ rs.foldl (fun a r => alSet a r.member_id (alGet a r.member_id - r.charge)) acc,
      isCent p.2) := by
  induction rs generalizing acc with
  | nil => exact ⟨by simp, hnd, hc⟩
  | cons r t ih =>
    have hstep_nd := alSet_keys_nodup (b := acc) r.member_id (alGet acc r.member_id - r.charge) hnd
    have hstep_cent := alSet_cent acc r.member_id (alGet acc r.member_id - r.charge) hc
      (isCent_sub (isCent_alGet r.member_id hc) (hrc r (by simp)))
    have hstep_sum := alSet_sum acc r.member_id (alGet acc r.member_id - r.charge) hnd
    have ih2 := ih (alSet acc r.member_id (alGet acc r.member_id - r.charge))
      hstep_nd hstep_cent (fun x hx => hrc x (by simp [hx]))
    refine ⟨?_, ih2.2.1, ih2.2.2⟩
    simp only [List.foldl_cons, List.map_cons, List.sum_cons]
    rw [ih2.1, hstep_sum]
    ring

theorem applyEntryBal_inv (b : List (String × ℚ)) (e : MonthEntry)
    (hnd : (b.map Prod.fst).Nodup) (hc : ∀ p ∈ b, isCent p.2)
    (hec : isCent e.total_amount) (herc : ∀ r ∈ e.riders, isCent r.charge)
    (hsum : e.total_amount = (e.riders.map EntryRider.charge).sum) :
    (((applyEntryBal b e).map Prod.snd).sum = (b.map Prod.snd).sum) ∧
    (((applyEntryBal b e).map Prod.fst).Nodup) ∧
    (∀ p ∈ applyEntryBal b e, isCent p.2) := by
  by_cases h0 : e.total_amount = 0
  · rw [applyEntryBal_zero b e h0]
    exact ⟨rfl, hnd, hc⟩
  · unfold applyEntryBal
    rw [if_neg h0]
    have hb1_nd := alSet_keys_nodup (b := b) e.driver_id (alGet b e.driver_id + e.total_amount) hnd
    have hb1_cent := alSet_cent b e.driver_id (alGet b e.driver_id + e.total_amount) hc
      (isCent_add (isCent_alGet e.driver_id hc) hec)
    have hb1_sum := alSet_sum b e.driver_id (alGet b e.driver_id + e.total_amount) hnd
    have hfold := riderFold_sum e.riders _ hb1_nd hb1_cent herc
    refine ⟨?_, hfold.2.1, hfold.2.2⟩
    rw [hfold.1, hb1_sum, ← hsum]
    ring

theorem initFold_inv (members : List String) :
    (((members.foldl (fun acc m => alSet acc m 0) []).map Prod.fst).Nodup) ∧
    (∀ p ∈ members.foldl (fun acc m => alSet acc m 0) [], p.2 = 0) := by
  suffices h : ∀ acc, (acc.map Prod.fst).Nodup → (∀ p ∈ acc, p.2 = 0) →
      (((members.foldl (fun acc m => alSet acc m 0) acc).map Prod.fst).Nodup) ∧
      (∀ p ∈ members.foldl (fun acc m => alSet acc m 0) acc, p.2 = 0) by
    exact h [] (by simp) (by simp)
  induction members with
  | nil => intro acc h1 h2; exact ⟨h1, h2⟩
  | cons m t ih =>
    intro acc h1 h2
    refine ih (alSet acc m 0) (alSet_keys_nodup m 0 h1) ?_
    intro p hp
    rcases alSet_mem hp with hm | hm
    · exact h2 p hm
    · rw [hm]

theorem initFold_sum (members : List String) :
    (((members.foldl (fun acc m => alSet acc m 0) []).map Prod.snd).sum = 0) := by
  have h := (initFold_inv members).2
  have : (members.foldl (fun acc m => alSet acc m 0) []).map Prod.snd
      = (members.foldl (fun acc m => alSet acc m 0) []).map (fun _ => (0 : ℚ)) := by
    refine List.map_congr_left fun p hp => h p hp
  rw [this]
  simp [List.map_const]

/-- C4 as stated is false: `computeMonthBalances` rounds each final balance
half-up, and with the half-cent entry total 0.005 = its single rider charge
the driver rounds up to 0.01 while the rider rounds to 0.00, so the balances
sum to 0.01, not 0. -/
theorem balance_conservation_refuted :
    (MonthEntry.total_amount ⟨"A", 1/200, [⟨"B", 1/200⟩]⟩ =
      ((MonthEntry.riders ⟨"A", 1/200, [⟨"B", 1/200⟩]⟩).map EntryRider.charge).sum) ∧
    computeMonthBalances ["A", "B"] [⟨"A", 1/200, [⟨"B", 1/200⟩]⟩] =
      [("A", 1/100), ("B", 0)] ∧
    round2 (((computeMonthBalances ["A", "B"] [⟨"A", 1/200, [⟨"B", 1/200⟩]⟩]).map
        Prod.snd).sum) ≠ 0 := by
  have hval : computeMonthBalances ["A", "B"] [⟨"A", 1/200, [⟨"B", 1/200⟩]⟩] =
      [("A", 1/100), ("B", 0)] := by
    have hAB : ("A" : String) ≠ "B" := by decide
    have hBA : ("B" : String) ≠ "A" := by decide
    norm_num [computeMonthBalances, applyEntryBal, alSet, alGet, round2, hAB, hBA]
  refine ⟨by norm_num, hval, ?_⟩
  rw [hval]
  norm_num [round2]

theorem entriesFold_inv (es : List MonthEntry) (b : List (String × ℚ))
    (hnd : (b.map Prod.fst).Nodup) (hc : ∀ p ∈ b, isCent p.2)
    (hec : ∀ e ∈ es, isCent e.total_amount)
    (herc : ∀ e ∈ es, ∀ r ∈ e.riders, isCent r.charge)
    (hsum : ∀ e ∈ es, e.total_amount = (e.riders.map EntryRider.charge).sum) :
    (((es.foldl applyEntryBal b).map Prod.snd).sum = (b.map Prod.snd).sum) ∧
    (((es.foldl applyEntryBal b).map Prod.fst).Nodup) ∧
    (∀ p ∈ es.foldl applyEntryBal b, isCent p.2) := by
  induction es generalizing b with
  | nil => exact ⟨rfl, hnd, hc⟩
  | cons e t ih =>
    have hstep := applyEntryBal_inv b e hnd hc (hec e (by simp))
      (herc e (by simp)) (hsum e (by simp))
    have ih2 := ih (applyEntryBal b e) hstep.2.1 hstep.2.2
      (fun x hx => hec x (by simp [hx])) (fun x hx => herc x (by simp [hx]))
      (fun x hx => hsum x (by simp [hx]))
    refine ⟨?_, ih2.2.1, ih2.2.2⟩
    simp only [List.foldl_cons]
    rw [ih2.1, hstep.1]

/-- C4 amended: Balance conservation for cent-valued data — when every
entry's `total_amount` and rider charges are whole numbers of cents (as the
split engine in fact stores them) and each `total_amount` equals the sum of
its rider charges, the balances of `computeMonthBalances` sum to exactly 0
over all members appearing in the result. -/
theorem balance_conservation_cents (members : List String) (entries : List MonthEntry)
    (hec : ∀ e ∈ entries, isCent e.total_amount)
    (herc : ∀ e ∈ entries, ∀ r ∈ e.riders, isCent r.charge)
    (hsum : ∀ e ∈ entries, e.total_amount = (e.riders.map EntryRider.charge).sum) :
    ((computeMonthBalances members entries).map Prod.snd).sum = 0 ∧
    round2 (((computeMonthBalances members entries).map Prod.snd).sum) = 0 := by
  have hinit := initFold_inv members
  have hinit_cent : ∀ p ∈ members.foldl (fun acc m => alSet acc m 0) [], isCent p.2 := by
    intro p hp
    rw [hinit.2 p hp]
    exact isCent_zero
  have hfold := entriesFold_inv entries _ hinit.1 hinit_cent hec herc hsum
  have hid : (entries.foldl applyEntryBal (members.foldl (fun acc m => alSet acc m 0) [])).map
      (fun p => (p.1, round2 p.2)) =
        entries.foldl applyEntryBal (members.foldl (fun acc m => alSet acc m 0) []) := by
    conv_rhs => rw [← List.map_id (entries.foldl applyEntryBal
      (members.foldl (fun acc m => alSet acc m 0) []))]
    refine List.map_congr_left fun p hp => ?_
    rw [round2_of_isCent (hfold.2.2 p hp)]
    rfl
  have hmain : ((computeMonthBalances members entries).map Prod.snd).sum = 0 := by
    unfold computeMonthBalances
    rw [hid, hfold.1, initFold_sum]
  exact ⟨hmain, by rw [hmain]; norm_num [round2]⟩

/-- C4 witness: one two-way day, total 10 split 5/5, balances sum to zero. -/
theorem balance_conservation_cents_witness :
    ((computeMonthBalances ["A", "B"]
        [⟨"A", 10, [⟨"A", 5⟩, ⟨"B", 5⟩]⟩]).map Prod.snd).sum = 0 ∧
    round2 (((computeMonthBalances ["A", "B"]
        [⟨"A", 10, [⟨"A", 5⟩, ⟨"B", 5⟩]⟩]).map Prod.snd).sum) = 0 :=
  balance_conservation_cents ["A", "B"] [⟨"A", 10, [⟨"A", 5⟩, ⟨"B", 5⟩]⟩]
    (by rintro e he; fin_cases he; exact ⟨1000, by norm_num⟩)
    (by rintro e he; fin_cases he; rintro r hr; fin_cases hr <;> exact ⟨500, by norm_num⟩)
    (by rintro e he; fin_cases he; norm_num)

/-! ## Calendar lemmas -/

theorem observed_sat {y m0 d : ℤ} (h : getDay (mkDate y m0 d) = 6) :
    observedFixedDateHoliday y m0 d = mkDate y m0 d - 1 := by
  unfold observedFixedDateHoliday
  rw [if_pos h]

theorem observed_sun {y m0 d : ℤ} (h : getDay (mkDate y m0 d) = 0) :
    observedFixedDateHoliday y m0 d = mkDate y m0 d + 1 := by
  unfold observedFixedDateHoliday
  rw [if_neg (by omega), if_pos h]

theorem observed_week {y m0 d : ℤ} (h6 : getDay (mkDate y m0 d) ≠ 6)
    (h0 : getDay (mkDate y m0 d) ≠ 0) :
    observedFixedDateHoliday y m0 d = mkDate y m0 d := by
  unfold observedFixedDateHoliday
  rw [if_neg h6, if_neg h0]

theorem getDay_pred {z : ℤ} (h : getDay z = 6) : getDay (z - 1) = 5 := by
  unfold getDay at *
  omega

theorem getDay_succ {z : ℤ} (h : getDay z = 0) : getDay (z + 1) = 1 := by
  unfold getDay at *
  omega

/-- C5: Holiday calculation — every year's list has exactly 11 entries built
from the five observed fixed dates (Jan 1, Jun 19, Jul 4, Nov 11, Dec 25) and
the nth/last-weekday holidays; a fixed date falling on Saturday is observed
the preceding Friday, on Sunday the following Monday, otherwise unshifted;
Juneteenth 2027 is listed as 2027-06-18 and New Year's Day 2028 as
2027-12-31. -/
theorem holiday_observance (y : ℤ) :
    (usFederalHolidaysObservedForYear y).length = 11 ∧
    (∀ m0 d : ℤ,
      (getDay (mkDate y m0 d) = 6 →
        observedFixedDateHoliday y m0 d = mkDate y m0 d - 1 ∧
        getDay (mkDate y m0 d - 1) = 5) ∧
      (getDay (mkDate y m0 d) = 0 →
        observedFixedDateHoliday y m0 d = mkDate y m0 d + 1 ∧
        getDay (mkDate y m0 d + 1) = 1) ∧
      (getDay (mkDate y m0 d) ≠ 6 → getDay (mkDate y m0 d) ≠ 0 →
        observedFixedDateHoliday y m0 d = mkDate y m0 d)) ∧
    ((usFederalHolidaysObservedForYear y).map Prod.fst =
      [fmtDate (observedFixedDateHoliday y 0 1), fmtDate (nthWeekdayOfMonth y 0 1 3),
       fmtDate (nthWeekdayOfMonth y 1 1 3), fmtDate (lastWeekdayOfMonth y 4 1),
       fmtDate (observedFixedDateHoliday y 5 19), fmtDate (observedFixedDateHoliday y 6 4),
       fmtDate (nthWeekdayOfMonth y 8 1 1), fmtDate (nthWeekdayOfMonth y 9 1 2),
       fmtDate (observedFixedDateHoliday y 10 11), fmtDate (nthWeekdayOfMonth y 10 4 4),
       fmtDate (observedFixedDateHoliday y 11 25)]) ∧
    ("2027-06-18", "Juneteenth Day") ∈ usFederalHolidaysObservedForYear 2027 ∧
    ("2027-12-31", "New Year\x27s Day") ∈ usFederalHolidaysObservedForYear 2028 := by
  refine ⟨rfl, ?_, rfl, by decide, by decide⟩
  intro m0 d
  exact ⟨fun h => ⟨observed_sat h, getDay_pred h⟩,
         fun h => ⟨observed_sun h, getDay_succ h⟩,
         fun h6 h0 => observed_week h6 h0⟩

/-- C5 witness: June 19, 2027 is a Saturday so Juneteenth 2027 is observed
one day earlier, on the Friday. -/
theorem holiday_observance_witness :
    getDay (mkDate 2027 5 19) = 6 ∧
    observedFixedDateHoliday 2027 5 19 = mkDate 2027 5 19 - 1 ∧
    getDay (mkDate 2027 5 19 - 1) = 5 :=
  ⟨by decide, ((holiday_observance 2027).2.1 5 19).1 (by decide)⟩

/-! ## Upsert store lemmas -/

theorem findIdx1_set {α : Type} (p : α → Bool) (l : List α) (i : ℕ) (x : α)
    (h : findIdx1 p l = some i) (hx : p x = true) : findIdx1 p (l.set i x) = some i := by
  induction l generalizing i with
  | nil => simp [findIdx1] at h
  | cons a t ih =>
    by_cases hpa : p a = true
    · rw [findIdx1, if_pos hpa] at h
      have h0 : (0 : ℕ) = i := by simpa using h
      subst h0
      show findIdx1 p (x :: t) = some 0
      rw [findIdx1, if_pos hx]
    · cases hft : findIdx1 p t with
      | none => rw [findIdx1, if_neg hpa, hft] at h; simp at h
      | some j =>
        rw [findIdx1, if_neg hpa, hft] at h
        simp at h
        subst h
        show findIdx1 p (a :: t.set j x) = some (j + 1)
        rw [findIdx1, if_neg hpa, ih j hft]
        rfl

theorem findIdx1_append_singleton_none {α : Type} (p : α → Bool) (l : List α) (x : α)
    (h : findIdx1 p l = none) (hx : p x = true) :
    findIdx1 p (l ++ [x]) = some l.length := by
  induction l with
  | nil => simp [findIdx1, hx]
  | cons a t ih =>
    by_cases hpa : p a = true
    · simp [findIdx1, hpa] at h
    · cases hft : findIdx1 p t with
      | some j => rw [findIdx1, if_neg hpa, hft] at h; simp at h
      | none =>
        show findIdx1 p (a :: (t ++ [x])) = some (t.length + 1)
        rw [findIdx1, if_neg hpa, ih hft]
        rfl

theorem set_append_length {α : Type} (l : List α) (a b : α) :
    (l ++ [a]).set l.length b = l ++ [b] := by
  induction l with
  | nil => rfl
  | cons c t ih => simp [List.set, ih]

theorem entriesAfter_cons (h0 : Row) (tl : List Row) (date : String) (row : Row) :
    entriesAfter (h0 :: tl) date row =
      (match findIdx1 (fun r => decide (cellToStr (cellAt r 1) = date)) tl with
       | some i => h0 :: tl.set i row
       | none => h0 :: (tl ++ [row])) := by
  simp only [entriesAfter]
  cases findIdx1 (fun r => decide (cellToStr (cellAt r 1) = date)) tl <;> rfl

theorem entriesAfter_idem (entries : List Row) (date : String) (row : Row)
    (hne : entries ≠ []) (hrow : cellToStr (cellAt row 1) = date) :
    entriesAfter (entriesAfter entries date row) date row = entriesAfter entries date row := by
  obtain ⟨h0, tl, rfl⟩ : ∃ h0 tl, entries = h0 :: tl := by
    cases entries with
    | nil => exact absurd rfl hne
    | cons a t => exact ⟨a, t, rfl⟩
  cases hfind : findIdx1 (fun r => decide (cellToStr (cellAt r 1) = date)) tl with
  | some i =>
    have hres : entriesAfter (h0 :: tl) date row = h0 :: tl.set i row := by
      rw [entriesAfter_cons, hfind]
    have hfind2 : findIdx1 (fun r => decide (cellToStr (cellAt r 1) = date)) (tl.set i row)
        = some i := findIdx1_set _ tl i row hfind (by simp [hrow])
    rw [hres, entriesAfter_cons, hfind2]
    show h0 :: (tl.set i row).set i row = h0 :: tl.set i row
    rw [List.set_set]
  | none =>
    have hres : entriesAfter (h0 :: tl) date row = h0 :: (tl ++ [row]) := by
      rw [entriesAfter_cons, hfind]
    have hfind2 : findIdx1 (fun r => decide (cellToStr (cellAt r 1) = date)) (tl ++ [row])
        = some tl.length := findIdx1_append_singleton_none _ tl row hfind (by simp [hrow])
    rw [hres, entriesAfter_cons, hfind2]
    show h0 :: (tl ++ [row]).set tl.length row = h0 :: (tl ++ [row])
    rw [set_append_length]

theorem drop_one_riderData (riders : List Row) :
    (if riders = [] then [riderHeaderRow] else riders).drop 1 = riders.drop 1 := by
  by_cases h : riders = []
  · subst h; rfl
  · rw [if_neg h]

theorem keptRiders_eq (riders : List Row) (date : String) (newRows : List Row) :
    keptRiders riders date newRows =
      riderHeaderRow ::
        ((riders.drop 1).filter (fun r => decide (¬ cellToStr (cellAt r 0) = date))) ++
          newRows := by
  unfold keptRiders
  rw [drop_one_riderData]

theorem length_le_filter_add_countP (l : List Row) (date : String) :
    l.length ≤ (l.filter (fun r => decide (¬ cellToStr (cellAt r 0) = date))).length
      + l.countP (fun r => decide (cellToStr (cellAt r 0) = date)) := by
  induction l with
  | nil => simp
  | cons a t ih =>
    by_cases ha : cellToStr (cellAt a 0) = date
    · simp [List.filter_cons, List.countP_cons, ha] at ih ⊢
      omega
    · simp [List.filter_cons, List.countP_cons, ha] at ih ⊢
      omega

theorem ridersAfter_of_le (riders : List Row) (date : String) (newRows : List Row)
    (hcount : (riders.drop 1).countP (fun r => decide (cellToStr (cellAt r 0) = date))
      ≤ newRows.length) :
    ridersAfter riders date newRows =
      riderHeaderRow ::
        ((riders.drop 1).filter (fun r => decide (¬ cellToStr (cellAt r 0) = date))) ++
          newRows := by
  unfold ridersAfter
  rw [keptRiders_eq]
  have hlen_drop : riders.length ≤ 1 + (riders.drop 1).length := by
    cases riders <;> simp <;> omega
  have hcnt := length_le_filter_add_countP (riders.drop 1) date
  have hle : riders.length ≤ (riderHeaderRow ::
      ((riders.drop 1).filter (fun r => decide (¬ cellToStr (cellAt r 0) = date))) ++
        newRows).length := by
    simp only [List.length_cons, List.length_append]
    omega
  rw [List.drop_eq_nil_of_le hle, List.append_nil]

theorem ridersAfter_idem (riders : List Row) (date : String) (newRows : List Row)
    (hcount : (riders.drop 1).countP (fun r => decide (cellToStr (cellAt r 0) = date))
      ≤ newRows.length)
    (hnew : ∀ r ∈ newRows, cellToStr (cellAt r 0) = date) :
    ridersAfter (ridersAfter riders date newRows) date newRows =
      ridersAfter riders date newRows := by
  rw [ridersAfter_of_le riders date newRows hcount]
  set olds := (riders.drop 1).filter (fun r => decide (¬ cellToStr (cellAt r 0) = date))
    with holds
  have hfilter : ((riderHeaderRow :: olds ++ newRows).drop 1).filter
      (fun r => decide (¬ cellToStr (cellAt r 0) = date)) = olds := by
    have hdrop : (riderHeaderRow :: olds ++ newRows).drop 1 = olds ++ newRows := by simp
    rw [hdrop, List.filter_append]
    have h1 : olds.filter (fun r => decide (¬ cellToStr (cellAt r 0) = date)) = olds := by
      rw [holds, List.filter_filter]
      refine List.filter_congr fun r _ => ?_
      simp
    have h2 : newRows.filter (fun r => decide (¬ cellToStr (cellAt r 0) = date)) = [] := by
      rw [List.filter_eq_nil]
      intro r hr
      simp [hnew r hr]
    rw [h1, h2, List.append_nil]
  have hcount2 : ((riderHeaderRow :: olds ++ newRows).drop 1).countP
      (fun r => decide (cellToStr (cellAt r 0) = date)) ≤ newRows.length := by
    have hdrop : (riderHeaderRow :: olds ++ newRows).drop 1 = olds ++ newRows := by simp
    rw [hdrop, List.countP_append]
    have h1 : olds.countP (fun r => decide (cellToStr (cellAt r 0) = date)) = 0 := by
      rw [List.countP_eq_zero]
      intro r hr
      have := List.of_mem_filter hr
      simpa using this
    have h2 : newRows.countP (fun r => decide (cellToStr (cellAt r 0) = date))
        ≤ newRows.length := List.countP_le_length _
    omega
  rw [ridersAfter_of_le _ date newRows hcount2, hfilter]

theorem upsertEntry_eq (st : StoreS) (rq : Req) (t : String) {T : ℚ}
    (hval : validateReq st.members rq = .ok T) :
    upsertEntry st rq t = .ok (⟨st.members,
      entriesAfter st.entries rq.date
        (entryRowOf rq T (round2 (chargeSum (finalCharges T rq.driver_id rq.riders))) t),
      ridersAfter st.riders rq.date
        ((finalCharges T rq.driver_id rq.riders).map (riderRowOf rq.date))⟩,
      entryRowOf rq T (round2 (chargeSum (finalCharges T rq.driver_id rq.riders))) t) := by
  unfold upsertEntry
  rw [hval]

theorem entryRowOf_date (rq : Req) (T total : ℚ) (t : String) :
    cellToStr (cellAt (entryRowOf rq T total t) 1) = rq.date := rfl

theorem riderRowOf_date (date : String) (c : RiderCharge) :
    cellToStr (cellAt (riderRowOf date c) 0) = date := rfl

/-- C6 amended: Upsert idempotence up to the quirks the code actually has —
provided the entries sheet is non-empty (the empty sheet loses its header and
the re-save then appends a duplicate) and the new rider count is at least the
number of existing rider rows for the date (else the truncated write leaves
stale rows that shift on re-save), saving the identical request again with
the same timestamp returns the identical store and entry row. -/
theorem upsert_idempotence_amended (st : StoreS) (rq : Req) (t : String)
    (h1 : st.entries ≠ [])
    (h2 : (st.riders.drop 1).countP (fun r => decide (cellToStr (cellAt r 0) = rq.date))
      ≤ rq.riders.length)
    (st1 : StoreS) (row : Row)
    (hsave : upsertEntry st rq t = .ok (st1, row)) :
    upsertEntry st1 rq t = .ok (st1, row) := by
  cases hval : validateReq st.members rq with
  | error e =>
    rw [upsertEntry, hval] at hsave
    simp at hsave
  | ok T =>
    rw [upsertEntry_eq st rq t hval] at hsave
    have hsave2 := hsave
    simp only [Except.ok.injEq, Prod.mk.injEq] at hsave2
    obtain ⟨hst1, hrow⟩ := hsave2
    subst hst1
    subst hrow
    have hval2 : validateReq
        (StoreS.mk st.members
          (entriesAfter st.entries rq.date
            (entryRowOf rq T (round2 (chargeSum (finalCharges T rq.driver_id rq.riders))) t))
          (ridersAfter st.riders rq.date
            ((finalCharges T rq.driver_id rq.riders).map (riderRowOf rq.date)))).members rq
        = .ok T := hval
    rw [upsertEntry_eq _ rq t hval2]
    have hE : entriesAfter
        (entriesAfter st.entries rq.date
          (entryRowOf rq T (round2 (chargeSum (finalCharges T rq.driver_id rq.riders))) t))
        rq.date
        (entryRowOf rq T (round2 (chargeSum (finalCharges T rq.driver_id rq.riders))) t) =
        entriesAfter st.entries rq.date
          (entryRowOf rq T (round2 (chargeSum (finalCharges T rq.driver_id rq.riders))) t) :=
      entriesAfter_idem st.entries rq.date _ h1 (entryRowOf_date rq T _ t)
    have hcount : (st.riders.drop 1).countP
        (fun r => decide (cellToStr (cellAt r 0) = rq.date))
        ≤ ((finalCharges T rq.driver_id rq.riders).map (riderRowOf rq.date)).length := by
      rw [List.length_map, finalCharges_length]
      exact h2
    have hnew : ∀ r ∈ (finalCharges T rq.driver_id rq.riders).map (riderRowOf rq.date),
        cellToStr (cellAt r 0) = rq.date := by
      intro r hr
      obtain ⟨c, _, rfl⟩ := List.mem_map.1 hr
      exact riderRowOf_date rq.date c
    have hR : ridersAfter
        (ridersAfter st.riders rq.date
          ((finalCharges T rq.driver_id rq.riders).map (riderRowOf rq.date)))
        rq.date ((finalCharges T rq.driver_id rq.riders).map (riderRowOf rq.date)) =
        ridersAfter st.riders rq.date
          ((finalCharges T rq.driver_id rq.riders).map (riderRowOf rq.date)) :=
      ridersAfter_idem st.riders rq.date _ hcount hnew
    simp only [hE, hR]

/-- C6 as stated is false: from an empty `day_entries` sheet the first save
appends the data row without a header; the re-save's `findIndex` skips index
0 and misses it, so the identical request is appended again — a duplicated
row, even with the identical timestamp. -/
theorem upsert_idempotence_refuted :
    upsertEntry ⟨[⟨"m1", 10, 20⟩], [], []⟩
        ⟨"2025-01-02", "m1", "one_way", [⟨"m1", "one_way"⟩], ""⟩ "T1" =
      Except.ok (⟨[⟨"m1", 10, 20⟩],
        [[Cell.str "2025-01-02", Cell.str "2025-01-02", Cell.str "m1", Cell.str "one_way",
          Cell.num 10, Cell.num 10, Cell.str "", Cell.str "T1"]],
        [riderHeaderRow,
         [Cell.str "2025-01-02", Cell.str "m1", Cell.str "one_way", Cell.num 1, Cell.num 10]]⟩,
        [Cell.str "2025-01-02", Cell.str "2025-01-02", Cell.str "m1", Cell.str "one_way",
         Cell.num 10, Cell.num 10, Cell.str "", Cell.str "T1"]) ∧
    upsertEntry ⟨[⟨"m1", 10, 20⟩],
        [[Cell.str "2025-01-02", Cell.str "2025-01-02", Cell.str "m1", Cell.str "one_way",
          Cell.num 10, Cell.num 10, Cell.str "", Cell.str "T1"]],
        [riderHeaderRow,
         [Cell.str "2025-01-02", Cell.str "m1", Cell.str "one_way", Cell.num 1, Cell.num 10]]⟩
        ⟨"2025-01-02", "m1", "one_way", [⟨"m1", "one_way"⟩], ""⟩ "T1" =
      Except.ok (⟨[⟨"m1", 10, 20⟩],
        [[Cell.str "2025-01-02", Cell.str "2025-01-02", Cell.str "m1", Cell.str "one_way",
          Cell.num 10, Cell.num 10, Cell.str "", Cell.str "T1"],
         [Cell.str "2025-01-02", Cell.str "2025-01-02", Cell.str "m1", Cell.str "one_way",
          Cell.num 10, Cell.num 10, Cell.str "", Cell.str "T1"]],
        [riderHeaderRow,
         [Cell.str "2025-01-02", Cell.str "m1", Cell.str "one_way", Cell.num 1, Cell.num 10]]⟩,
        [Cell.str "2025-01-02", Cell.str "2025-01-02", Cell.str "m1", Cell.str "one_way",
         Cell.num 10, Cell.num 10, Cell.str "", Cell.str "T1"]) ∧
    ([[Cell.str "2025-01-02", Cell.str "2025-01-02", Cell.str "m1", Cell.str "one_way",
       Cell.num 10, Cell.num 10, Cell.str "", Cell.str "T1"],
      [Cell.str "2025-01-02", Cell.str "2025-01-02", Cell.str "m1", Cell.str "one_way",
       Cell.num 10, Cell.num 10, Cell.str "", Cell.str "T1"]] : List Row) ≠
      [[Cell.str "2025-01-02", Cell.str "2025-01-02", Cell.str "m1", Cell.str "one_way",
        Cell.num 10, Cell.num 10, Cell.str "", Cell.str "T1"]] := by
  have hdf : isDateFormat "2025-01-02" = true := by decide
  have hm : ("m1" : String) ≠ "" := by decide
  have hval : validateReq [⟨"m1", 10, 20⟩]
      ⟨"2025-01-02", "m1", "one_way", [⟨"m1", "one_way"⟩], ""⟩ = .ok 10 := by
    norm_num [validateReq, hdf, hm, validateRidersS, totalUnits, unitsForTrip]
  have hfc : finalCharges 10 "m1" [⟨"m1", "one_way"⟩] = [⟨"m1", "one_way", 1, 10⟩] := by
    norm_num [finalCharges, splitDrift, preCharges, chargeSum, totalUnits, unitsForTrip, round2]
  have hta : round2 (chargeSum [⟨"m1", "one_way", 1, 10⟩]) = 10 := by
    norm_num [chargeSum, round2]
  refine ⟨?_, ?_, by simp⟩
  · rw [upsertEntry_eq _ _ _ hval, hfc, hta]
    simp [entriesAfter, findIdx1, ridersAfter, keptRiders, entryRowOf, riderRowOf]
  · rw [upsertEntry_eq _ _ _ hval, hfc, hta]
    simp [entriesAfter, findIdx1, ridersAfter, keptRiders, entryRowOf, riderRowOf,
      cellAt, cellToStr]

/-- C6 witness: with a header row present and a fresh date, the second
identical save (same timestamp) returns the identical store and row. -/
theorem upsert_idempotence_amended_witness :
    upsertEntry ⟨[⟨"m1", 10, 20⟩], [entryHeaderRow], [riderHeaderRow]⟩
        ⟨"2025-01-02", "m1", "one_way", [⟨"m1", "one_way"⟩], ""⟩ "T1" =
      Except.ok (⟨[⟨"m1", 10, 20⟩],
        [entryHeaderRow,
         [Cell.str "2025-01-02", Cell.str "2025-01-02", Cell.str "m1", Cell.str "one_way",
          Cell.num 10, Cell.num 10, Cell.str "", Cell.str "T1"]],
        [riderHeaderRow,
         [Cell.str "2025-01-02", Cell.str "m1", Cell.str "one_way", Cell.num 1, Cell.num 10]]⟩,
        [Cell.str "2025-01-02", Cell.str "2025-01-02", Cell.str "m1", Cell.str "one_way",
         Cell.num 10, Cell.num 10, Cell.str "", Cell.str "T1"]) ∧
    upsertEntry ⟨[⟨"m1", 10, 20⟩],
        [entryHeaderRow,
         [Cell.str "2025-01-02", Cell.str "2025-01-02", Cell.str "m1", Cell.str "one_way",
          Cell.num 10, Cell.num 10, Cell.str "", Cell.str "T1"]],
        [riderHeaderRow,
         [Cell.str "2025-01-02", Cell.str "m1", Cell.str "one_way", Cell.num 1, Cell.num 10]]⟩
        ⟨"2025-01-02", "m1", "one_way", [⟨"m1", "one_way"⟩], ""⟩ "T1" =
      Except.ok (⟨[⟨"m1", 10, 20⟩],
        [entryHeaderRow,
         [Cell.str "2025-01-02", Cell.str "2025-01-02", Cell.str "m1", Cell.str "one_way",
          Cell.num 10, Cell.num 10, Cell.str "", Cell.str "T1"]],
        [riderHeaderRow,
         [Cell.str "2025-01-02", Cell.str "m1", Cell.str "one_way", Cell.num 1, Cell.num 10]]⟩,
        [Cell.str "2025-01-02", Cell.str "2025-01-02", Cell.str "m1", Cell.str "one_way",
         Cell.num 10, Cell.num 10, Cell.str "", Cell.str "T1"]) := by
  have hdf : isDateFormat "2025-01-02" = true := by decide
  have hm : ("m1" : String) ≠ "" := by decide
  have hval : validateReq [⟨"m1", 10, 20⟩]
      ⟨"2025-01-02", "m1", "one_way", [⟨"m1", "one_way"⟩], ""⟩ = .ok 10 := by
    norm_num [validateReq, hdf, hm, validateRidersS, totalUnits, unitsForTrip]
  have hfc : finalCharges 10 "m1" [⟨"m1", "one_way"⟩] = [⟨"m1", "one_way", 1, 10⟩] := by
    norm_num [finalCharges, splitDrift, preCharges, chargeSum, totalUnits, unitsForTrip, round2]
  have hta : round2 (chargeSum [⟨"m1", "one_way", 1, 10⟩]) = 10 := by
    norm_num [chargeSum, round2]
  have hsave : upsertEntry ⟨[⟨"m1", 10, 20⟩], [entryHeaderRow], [riderHeaderRow]⟩
      ⟨"2025-01-02", "m1", "one_way", [⟨"m1", "one_way"⟩], ""⟩ "T1" =
      Except.ok (⟨[⟨"m1", 10, 20⟩],
        [entryHeaderRow,
         [Cell.str "2025-01-02", Cell.str "2025-01-02", Cell.str "m1", Cell.str "one_way",
          Cell.num 10, Cell.num 10, Cell.str "", Cell.str "T1"]],
        [riderHeaderRow,
         [Cell.str "2025-01-02", Cell.str "m1", Cell.str "one_way", Cell.num 1, Cell.num 10]]⟩,
        [Cell.str "2025-01-02", Cell.str "2025-01-02", Cell.str "m1", Cell.str "one_way",
         Cell.num 10, Cell.num 10, Cell.str "", Cell.str "T1"]) := by
    rw [upsertEntry_eq _ _ _ hval, hfc, hta]
    simp [entriesAfter, findIdx1, ridersAfter, keptRiders, entryRowOf, riderRowOf,
      entryHeaderRow, riderHeaderRow, cellAt, cellToStr]
  exact ⟨hsave,
    upsert_idempotence_amended ⟨[⟨"m1", 10, 20⟩], [entryHeaderRow], [riderHeaderRow]⟩
      ⟨"2025-01-02", "m1", "one_way", [⟨"m1", "one_way"⟩], ""⟩ "T1"
      (by simp) (by simp) _ _ hsave⟩

/-- C7: the rider write truncates its range to `kept.length`, so when a save
for a date carries fewer riders than the rows previously stored for that
date, the surviving tail of the old sheet still holds a rider row whose
`entry_id` is that date — the prior rows are not all removed.  Here the old
sheet has two rider rows for 2025-01-02 and the new save has one: the stale
row for member m2 remains in the stored table. -/
theorem rider_supersede_stale_row :
    upsertEntry ⟨[⟨"m1", 10, 20⟩],
        [entryHeaderRow,
         [Cell.str "2025-01-02", Cell.str "2025-01-02", Cell.str "m1", Cell.str "two_way",
          Cell.num 20, Cell.num 20, Cell.str "", Cell.str "T0"]],
        [riderHeaderRow,
         [Cell.str "2025-01-02", Cell.str "m1", Cell.str "two_way", Cell.num 2, Cell.num 10],
         [Cell.str "2025-01-02", Cell.str "m2", Cell.str "two_way", Cell.num 2, Cell.num 10]]⟩
        ⟨"2025-01-02", "m1", "one_way", [⟨"m1", "one_way"⟩], ""⟩ "T2" =
      Except.ok (⟨[⟨"m1", 10, 20⟩],
        [entryHeaderRow,
         [Cell.str "2025-01-02", Cell.str "2025-01-02", Cell.str "m1", Cell.str "one_way",
          Cell.num 10, Cell.num 10, Cell.str "", Cell.str "T2"]],
        [riderHeaderRow,
         [Cell.str "2025-01-02", Cell.str "m1", Cell.str "one_way", Cell.num 1, Cell.num 10],
         [Cell.str "2025-01-02", Cell.str "m2", Cell.str "two_way", Cell.num 2, Cell.num 10]]⟩,
        [Cell.str "2025-01-02", Cell.str "2025-01-02", Cell.str "m1", Cell.str "one_way",
         Cell.num 10, Cell.num 10, Cell.str "", Cell.str "T2"]) ∧
    ([Cell.str "2025-01-02", Cell.str "m2", Cell.str "two_way", Cell.num 2, Cell.num 10] : Row) ∈
      ([riderHeaderRow,
        [Cell.str "2025-01-02", Cell.str "m1", Cell.str "one_way", Cell.num 1, Cell.num 10],
        [Cell.str "2025-01-02", Cell.str "m2", Cell.str "two_way", Cell.num 2, Cell.num 10]] :
        List Row) ∧
    cellToStr (cellAt
      [Cell.str "2025-01-02", Cell.str "m2", Cell.str "two_way", Cell.num 2, Cell.num 10] 0)
      = "2025-01-02" := by
  have hdf : isDateFormat "2025-01-02" = true := by decide
  have hm : ("m1" : String) ≠ "" := by decide
  have hval : validateReq [⟨"m1", 10, 20⟩]
      ⟨"2025-01-02", "m1", "one_way", [⟨"m1", "one_way"⟩], ""⟩ = .ok 10 := by
    norm_num [validateReq, hdf, hm, validateRidersS, totalUnits, unitsForTrip]
  have hfc : finalCharges 10 "m1" [⟨"m1", "one_way"⟩] = [⟨"m1", "one_way", 1, 10⟩] := by
    norm_num [finalCharges, splitDrift, preCharges, chargeSum, totalUnits, unitsForTrip, round2]
  have hta : round2 (chargeSum [⟨"m1", "one_way", 1, 10⟩]) = 10 := by
    norm_num [chargeSum, round2]
  refine ⟨?_, by simp, rfl⟩
  rw [upsertEntry_eq _ _ _ hval, hfc, hta]
  simp [entriesAfter, findIdx1, ridersAfter, keptRiders, entryRowOf, riderRowOf,
    entryHeaderRow, riderHeaderRow, cellAt, cellToStr]

/-- C8 as stated is false for the plain backend: server.js validates only
that each rider has a non-empty `member_id` and a valid `trip_type` — it
never checks membership.  The unknown rider id "ghost" is accepted, charged,
and written to the rider table instead of being rejected. -/
theorem rider_validation_refuted :
    upsertEntry ⟨[⟨"m1", 10, 20⟩], [], []⟩
        ⟨"2025-01-02", "m1", "one_way", [⟨"m1", "one_way"⟩, ⟨"ghost", "one_way"⟩], ""⟩ "T3" =
      Except.ok (⟨[⟨"m1", 10, 20⟩],
        [[Cell.str "2025-01-02", Cell.str "2025-01-02", Cell.str "m1", Cell.str "one_way",
          Cell.num 10, Cell.num 10, Cell.str "", Cell.str "T3"]],
        [riderHeaderRow,
         [Cell.str "2025-01-02", Cell.str "m1", Cell.str "one_way", Cell.num 1, Cell.num 5],
         [Cell.str "2025-01-02", Cell.str "ghost", Cell.str "one_way", Cell.num 1, Cell.num 5]]⟩,
        [Cell.str "2025-01-02", Cell.str "2025-01-02", Cell.str "m1", Cell.str "one_way",
         Cell.num 10, Cell.num 10, Cell.str "", Cell.str "T3"]) ∧
    (∀ m ∈ ([⟨"m1", 10, 20⟩] : List MemberR), m.member_id ≠ "ghost") ∧
    ([Cell.str "2025-01-02", Cell.str "ghost", Cell.str "one_way", Cell.num 1, Cell.num 5] : Row)
      ∈ ([riderHeaderRow,
          [Cell.str "2025-01-02", Cell.str "m1", Cell.str "one_way", Cell.num 1, Cell.num 5],
          [Cell.str "2025-01-02", Cell.str "ghost", Cell.str "one_way", Cell.num 1, Cell.num 5]] :
          List Row) := by
  have hdf : isDateFormat "2025-01-02" = true := by decide
  have hm : ("m1" : String) ≠ "" := by decide
  have hg : ("ghost" : String) ≠ "" := by decide
  have hval : validateReq [⟨"m1", 10, 20⟩]
      ⟨"2025-01-02", "m1", "one_way", [⟨"m1", "one_way"⟩, ⟨"ghost", "one_way"⟩], ""⟩
      = .ok 10 := by
    norm_num [validateReq, hdf, hm, hg, validateRidersS, totalUnits, unitsForTrip]
    intro h
    simp at h
  have hfc : finalCharges 10 "m1" [⟨"m1", "one_way"⟩, ⟨"ghost", "one_way"⟩] =
      [⟨"m1", "one_way", 1, 5⟩, ⟨"ghost", "one_way", 1, 5⟩] := by
    norm_num [finalCharges, splitDrift, preCharges, chargeSum, totalUnits, unitsForTrip, round2]
  have hta : round2 (chargeSum [⟨"m1", "one_way", 1, 5⟩, ⟨"ghost", "one_way", 1, 5⟩]) = 10 := by
    norm_num [chargeSum, round2]
  refine ⟨?_, by simp, by simp⟩
  rw [upsertEntry_eq _ _ _ hval, hfc, hta]
  simp [entriesAfter, findIdx1, ridersAfter, keptRiders, entryRowOf, riderRowOf,
    riderHeaderRow, cellAt, cellToStr]

theorem validateRidersG_unknown (gid : String) (ms : List MemberG) (rs : List ReqRider)
    (h : ∃ rr ∈ rs, memberMapGet ms rr.member_id = none) :
    ∃ msg, validateRidersG gid ms rs = some msg := by
  induction rs with
  | nil => simp at h
  | cons rr rest ih =>
    cases hmm : memberMapGet ms rr.member_id with
    | none =>
      refine ⟨"Unknown rider member_id: " ++ rr.member_id, ?_⟩
      simp only [validateRidersG, hmm]
    | some row =>
      obtain ⟨x, hx, hxn⟩ := h
      rcases List.mem_cons.1 hx with rfl | hx'
      · rw [hmm] at hxn
        exact absurd hxn (by simp)
      · obtain ⟨msg, hmsg⟩ := ih ⟨x, hx', hxn⟩
        by_cases hgrp : row.group_id = gid
        · by_cases htrip : rr.trip_type = "one_way" ∨ rr.trip_type = "two_way"
          · refine ⟨msg, ?_⟩
            simp only [validateRidersG, hmm]
            rw [if_neg (by simp [hgrp]), if_pos htrip]
            exact hmsg
          · refine ⟨"riders.trip_type must be one_way or two_way", ?_⟩
            simp only [validateRidersG, hmm]
            rw [if_neg (by simp [hgrp]), if_neg htrip]
        · refine ⟨"Rider not in this group: " ++ rr.member_id, ?_⟩
          simp only [validateRidersG, hmm]
          rw [if_pos (by simp [hgrp])]

/-- C8 amended: for the group-scoped backend variant the claim holds — a
request containing a rider whose member_id is not in the member store is
answered with an error (its rider-validation loop reports
`Unknown rider member_id` when reached, and every earlier check likewise
rejects without reaching the write phase), and the error result carries no
store write. -/
theorem rider_validation_grouped (gid : String) (st : StoreG) (rq : Req) (t : String)
    (h : ∃ rr ∈ rq.riders, memberMapGet st.members rr.member_id = none) :
    ∃ msg, upsertEntryG gid st rq t = .error msg := by
  obtain ⟨msg, hmsg⟩ := validateRidersG_unknown gid st.members rq.riders h
  cases hres : validateReqG gid st.members rq with
  | error e => exact ⟨e, by unfold upsertEntryG; rw [hres]⟩
  | ok T =>
    exfalso
    unfold validateReqG at hres
    split_ifs at hres <;> try exact Except.noConfusion hres
    all_goals
      split at hres <;> try exact Except.noConfusion hres
      all_goals
        split_ifs at hres <;> try exact Except.noConfusion hres
        all_goals
          rw [hmsg] at hres
          exact Except.noConfusion hres

/-- C8 witness: the group-scoped variant rejects the unknown rider "ghost". -/
theorem rider_validation_grouped_witness :
    ∃ msg, upsertEntryG "g" ⟨[⟨"m1", 10, 20, "g"⟩], [], []⟩
      ⟨"2025-01-02", "m1", "one_way", [⟨"m1", "one_way"⟩, ⟨"ghost", "one_way"⟩], ""⟩ "T4"
      = .error msg :=
  rider_validation_grouped "g" ⟨[⟨"m1", 10, 20, "g"⟩], [], []⟩
    ⟨"2025-01-02", "m1", "one_way", [⟨"m1", "one_way"⟩, ⟨"ghost", "one_way"⟩], ""⟩ "T4"
    ⟨⟨"ghost", "one_way"⟩, by simp, by
      have : ("ghost" : String) ≠ "m1" := by decide
      simp [memberMapGet, this]⟩

/-! ### Settlement replay (claim C2): basic transfer-accounting lemmas -/

theorem paidFrom_nil (k : String) : paidFrom [] k = 0 := rfl

theorem paidTo_nil (k : String) : paidTo [] k = 0 := rfl

theorem paidFrom_cons (t : Transfer) (ts : List Transfer) (k : String) :
    paidFrom (t :: ts) k = (if t.tfrom = k then t.amount else 0) + paidFrom ts k := by
  simp [paidFrom]

theorem paidTo_cons (t : Transfer) (ts : List Transfer) (k : String) :
    paidTo (t :: ts) k = (if t.tto = k then t.amount else 0) + paidTo ts k := by
  simp [paidTo]

theorem paidFrom_append (ts1 ts2 : List Transfer) (k : String) :
    paidFrom (ts1 ++ ts2) k = paidFrom ts1 k + paidFrom ts2 k := by
  simp [paidFrom]

theorem paidTo_append (ts1 ts2 : List Transfer) (k : String) :
    paidTo (ts1 ++ ts2) k = paidTo ts1 k + paidTo ts2 k := by
  simp [paidTo]

theorem paidFrom_eq_zero {ts : List Transfer} {k : String}
    (h : ∀ t ∈ ts, t.tfrom ≠ k) : paidFrom ts k = 0 := by
  rw [paidFrom]
  apply List.sum_eq_zero
  intro x hx
  rcases List.mem_map.1 hx with ⟨t, ht, rfl⟩
  rw [if_neg (h t ht)]

theorem paidTo_eq_zero {ts : List Transfer} {k : String}
    (h : ∀ t ∈ ts, t.tto ≠ k) : paidTo ts k = 0 := by
  rw [paidTo]
  apply List.sum_eq_zero
  intro x hx
  rcases List.mem_map.1 hx with ⟨t, ht, rfl⟩
  rw [if_neg (h t ht)]

theorem paidFrom_nonneg {ts : List Transfer} (k : String)
    (h : ∀ t ∈ ts, 0 ≤ t.amount) : 0 ≤ paidFrom ts k := by
  rw [paidFrom]
  apply List.sum_nonneg
  intro x hx
  rcases List.mem_map.1 hx with ⟨t, ht, rfl⟩
  split
  · exact h t ht
  · exact le_refl 0

theorem paidTo_nonneg {ts : List Transfer} (k : String)
    (h : ∀ t ∈ ts, 0 ≤ t.amount) : 0 ≤ paidTo ts k := by
  rw [paidTo]
  apply List.sum_nonneg
  intro x hx
  rcases List.mem_map.1 hx with ⟨t, ht, rfl⟩
  split
  · exact h t ht
  · exact le_refl 0

theorem isCent_paidFrom {ts : List Transfer} (k : String)
    (h : ∀ t ∈ ts, isCent t.amount) : isCent (paidFrom ts k) := by
  rw [paidFrom]
  apply isCent_sum
  intro x hx
  rcases List.mem_map.1 hx with ⟨t, ht, rfl⟩
  split
  · exact h t ht
  · exact isCent_zero

theorem isCent_paidTo {ts : List Transfer} (k : String)
    (h : ∀ t ∈ ts, isCent t.amount) : isCent (paidTo ts k) := by
  rw [paidTo]
  apply isCent_sum
  intro x hx
  rcases List.mem_map.1 hx with ⟨t, ht, rfl⟩
  split
  · exact h t ht
  · exact isCent_zero

theorem greedyLoop_nil_right : ∀ ds : List (String × ℚ), greedyLoop ds [] = []
  | [] => rfl
  | (dId, dAmt) :: ds => by
    show (runDebtor dId dAmt []).1 ++ greedyLoop ds (runDebtor dId dAmt []).2 = []
    rw [runDebtor]
    exact greedyLoop_nil_right ds

theorem sum_map_le_length_mul {α : Type} (l : List α) (f : α → ℚ) (c : ℚ)
    (h : ∀ a ∈ l, f a ≤ c) : (l.map f).sum ≤ l.length * c := by
  induction l with
  | nil => simp
  | cons x xs ih =>
    simp only [List.map_cons, List.sum_cons, List.length_cons]
    have h1 := h x (List.mem_cons_self x xs)
    have h2 := ih (fun a ha => h a (List.mem_cons_of_mem x ha))
    push_cast
    nlinarith

theorem abs_sum_map_le {α : Type} (l : List α) (f : α → ℚ) (c : ℚ)
    (h : ∀ a ∈ l, |f a| ≤ c) : |(l.map f).sum| ≤ l.length * c := by
  induction l with
  | nil => simp
  | cons x xs ih =>
    simp only [List.map_cons, List.sum_cons, List.length_cons]
    have h1 := h x (List.mem_cons_self x xs)
    have h2 := ih (fun a ha => h a (List.mem_cons_of_mem x ha))
    have h3 := abs_add (f x) (xs.map f).sum
    push_cast
    nlinarith

theorem single_le_sum_map {α : Type} [DecidableEq α] (l : List α) (f : α → ℚ) (a : α)
    (ha : a ∈ l) (h : ∀ b ∈ l, 0 ≤ f b) : f a ≤ (l.map f).sum := by
  induction l with
  | nil => exact absurd ha (List.not_mem_nil a)
  | cons x xs ih =>
    simp only [List.map_cons, List.sum_cons]
    rcases List.mem_cons.1 ha with h1 | h1
    · subst h1
      have hsum : 0 ≤ (xs.map f).sum := by
        apply List.sum_nonneg
        intro y hy
        rcases List.mem_map.1 hy with ⟨b, hb, rfl⟩
        exact h b (List.mem_cons_of_mem a hb)
      linarith
    · have := ih h1 (fun b hb => h b (List.mem_cons_of_mem x hb))
      have h0 := h x (List.mem_cons_self x xs)
      linarith

/-- C2 counterexample: the balances (+0.02, -0.01, -0.01) sum to zero, but both
debtors fail the strict `v < -0.01` test, so no transfer is generated at all and
the creditor's replayed balance stays at 0.02, outside the claimed 0.01 band. -/
theorem settlement_replay_refuted :
    round2 (([("a", (2:ℚ)/100), ("b", -(1/100)), ("c", -(1/100))].map Prod.snd).sum) = 0 ∧
    suggestTransfers [("a", (2:ℚ)/100), ("b", -(1/100)), ("c", -(1/100))] = [] ∧
    ¬ |replayedBalance [("a", (2:ℚ)/100), ("b", -(1/100)), ("c", -(1/100))] "a"| ≤ 1/100 := by
  have hs : suggestTransfers [("a", (2:ℚ)/100), ("b", -(1/100)), ("c", -(1/100))] = [] := by
    norm_num [suggestTransfers, debtorsOf, round2, sortDescAmount, greedyLoop]
  refine ⟨by norm_num [round2], hs, ?_⟩
  rw [replayedBalance, hs]
  norm_num [alGet, paidFrom, paidTo]
  rw [show |(1:ℚ)/50| = 1/50 from abs_of_nonneg (by norm_num)]
  norm_num

theorem runDebtor_nil (dId : String) (dAmt : ℚ) : runDebtor dId dAmt [] = ([], []) := rfl

theorem runDebtor_cons_le (dId cId : String) (dAmt cAmt : ℚ) (cs : List (String × ℚ))
    (h1 : dAmt ≤ cAmt) (h2 : round2 (cAmt - dAmt) ≤ 1/100) :
    runDebtor dId dAmt ((cId, cAmt) :: cs) = ([⟨dId, cId, round2 dAmt⟩], cs) := by
  simp only [runDebtor, if_pos h1, if_pos h2]

theorem runDebtor_cons_le_rem (dId cId : String) (dAmt cAmt : ℚ) (cs : List (String × ℚ))
    (h1 : dAmt ≤ cAmt) (h2 : ¬ round2 (cAmt - dAmt) ≤ 1/100) :
    runDebtor dId dAmt ((cId, cAmt) :: cs)
      = ([⟨dId, cId, round2 dAmt⟩], (cId, round2 (cAmt - dAmt)) :: cs) := by
  simp only [runDebtor, if_pos h1, if_neg h2]

theorem runDebtor_cons_gt_done (dId cId : String) (dAmt cAmt : ℚ) (cs : List (String × ℚ))
    (h1 : ¬ dAmt ≤ cAmt) (h2 : round2 (dAmt - cAmt) ≤ 1/100) :
    runDebtor dId dAmt ((cId, cAmt) :: cs) = ([⟨dId, cId, round2 cAmt⟩], cs) := by
  simp only [runDebtor, if_neg h1, if_pos h2]

theorem runDebtor_cons_gt_rec (dId cId : String) (dAmt cAmt : ℚ) (cs : List (String × ℚ))
    (h1 : ¬ dAmt ≤ cAmt) (h2 : ¬ round2 (dAmt - cAmt) ≤ 1/100) :
    runDebtor dId dAmt ((cId, cAmt) :: cs)
      = (⟨dId, cId, round2 cAmt⟩ :: (runDebtor dId (round2 (dAmt - cAmt)) cs).1,
          (runDebtor dId (round2 (dAmt - cAmt)) cs).2) := by
  simp only [runDebtor, if_neg h1, if_neg h2]

theorem round2_nonneg (x : ℚ) (h : 0 ≤ x) : 0 ≤ round2 x := by
  unfold round2
  have hf : (0:ℤ) ≤ ⌊x * 100 + 1/2⌋ := Int.le_floor.2 (by push_cast; linarith)
  have hq : (0:ℚ) ≤ (⌊x * 100 + 1/2⌋ : ℚ) := by exact_mod_cast hf
  linarith

/-- Every transfer emitted while running one debtor against the creditor queue
goes from that debtor to a queued creditor, with a nonnegative cent amount. -/
theorem runDebtor_transfers (dId : String) (cs : List (String × ℚ)) (dAmt : ℚ)
    (hdpos : 0 ≤ dAmt) (hcpos : ∀ p ∈ cs, 0 ≤ p.2) :
    ∀ t ∈ (runDebtor dId dAmt cs).1,
      t.tfrom = dId ∧ t.tto ∈ cs.map Prod.fst ∧ 0 ≤ t.amount ∧ isCent t.amount := by
  induction cs generalizing dAmt with
  | nil =>
    intro t ht
    rw [runDebtor_nil] at ht
    exact absurd ht (List.not_mem_nil t)
  | cons c cs ih =>
    obtain ⟨cId, cAmt⟩ := c
    have hc0 : 0 ≤ cAmt := hcpos (cId, cAmt) (List.mem_cons_self _ _)
    have hcs : ∀ p ∈ cs, 0 ≤ p.2 := fun p hp => hcpos p (List.mem_cons_of_mem _ hp)
    by_cases h1 : dAmt ≤ cAmt
    · by_cases h2 : round2 (cAmt - dAmt) ≤ 1/100
      · rw [runDebtor_cons_le dId cId dAmt cAmt cs h1 h2]
        intro t ht
        simp only [List.mem_singleton] at ht
        subst ht
        exact ⟨rfl, by simp, round2_nonneg dAmt hdpos, isCent_round2 dAmt⟩
      · rw [runDebtor_cons_le_rem dId cId dAmt cAmt cs h1 h2]
        intro t ht
        simp only [List.mem_singleton] at ht
        subst ht
        exact ⟨rfl, by simp, round2_nonneg dAmt hdpos, isCent_round2 dAmt⟩
    · by_cases h2 : round2 (dAmt - cAmt) ≤ 1/100
      · rw [runDebtor_cons_gt_done dId cId dAmt cAmt cs h1 h2]
        intro t ht
        simp only [List.mem_singleton] at ht
        subst ht
        exact ⟨rfl, by simp, round2_nonneg cAmt hc0, isCent_round2 cAmt⟩
      · rw [runDebtor_cons_gt_rec dId cId dAmt cAmt cs h1 h2]
        intro t ht
        rcases List.mem_cons.1 ht with h | h
        · subst h
          exact ⟨rfl, by simp, round2_nonneg cAmt hc0, isCent_round2 cAmt⟩
        · have hrem : 0 ≤ round2 (dAmt - cAmt) := round2_nonneg _ (by linarith [lt_of_not_le h1])
          obtain ⟨ha, hb, hcc, hd⟩ := ih (round2 (dAmt - cAmt)) hrem hcs t h
          exact ⟨ha, by simp only [List.map_cons]; exact List.mem_cons_of_mem _ hb, hcc, hd⟩

/-- What one debtor pays in total: between 0 and the debt, and on exit either at
most one cent of debt is left or the creditor queue has been exhausted. -/
theorem runDebtor_paidFrom (dId : String) (cs : List (String × ℚ)) (dAmt : ℚ)
    (hdc : isCent dAmt) (hdpos : 0 ≤ dAmt)
    (hcc : ∀ p ∈ cs, isCent p.2) (hcpos : ∀ p ∈ cs, 0 ≤ p.2) :
    0 ≤ paidFrom (runDebtor dId dAmt cs).1 dId ∧
    paidFrom (runDebtor dId dAmt cs).1 dId ≤ dAmt ∧
    (dAmt - paidFrom (runDebtor dId dAmt cs).1 dId ≤ 1/100 ∨ (runDebtor dId dAmt cs).2 = []) := by
  induction cs generalizing dAmt with
  | nil =>
    rw [runDebtor_nil]
    exact ⟨le_refl 0, hdpos, Or.inr rfl⟩
  | cons c cs ih =>
    obtain ⟨cId, cAmt⟩ := c
    have hc0 : 0 ≤ cAmt := hcpos (cId, cAmt) (List.mem_cons_self _ _)
    have hcc0 : isCent cAmt := hcc (cId, cAmt) (List.mem_cons_self _ _)
    have hcs : ∀ p ∈ cs, 0 ≤ p.2 := fun p hp => hcpos p (List.mem_cons_of_mem _ hp)
    have hccs : ∀ p ∈ cs, isCent p.2 := fun p hp => hcc p (List.mem_cons_of_mem _ hp)
    have hrd : round2 dAmt = dAmt := round2_of_isCent hdc
    have hrc : round2 cAmt = cAmt := round2_of_isCent hcc0
    by_cases h1 : dAmt ≤ cAmt
    · by_cases h2 : round2 (cAmt - dAmt) ≤ 1/100
      · rw [runDebtor_cons_le dId cId dAmt cAmt cs h1 h2]
        have hp : paidFrom [(⟨dId, cId, round2 dAmt⟩ : Transfer)] dId = dAmt := by
          simp [paidFrom, hrd]
        rw [hp]
        exact ⟨hdpos, le_refl dAmt, Or.inl (by linarith)⟩
      · rw [runDebtor_cons_le_rem dId cId dAmt cAmt cs h1 h2]
        have hp : paidFrom [(⟨dId, cId, round2 dAmt⟩ : Transfer)] dId = dAmt := by
          simp [paidFrom, hrd]
        rw [hp]
        exact ⟨hdpos, le_refl dAmt, Or.inl (by linarith)⟩
    · have hlt : cAmt < dAmt := lt_of_not_le h1
      have hsub : round2 (dAmt - cAmt) = dAmt - cAmt := round2_of_isCent (isCent_sub hdc hcc0)
      by_cases h2 : round2 (dAmt - cAmt) ≤ 1/100
      · rw [runDebtor_cons_gt_done dId cId dAmt cAmt cs h1 h2]
        have hp : paidFrom [(⟨dId, cId, round2 cAmt⟩ : Transfer)] dId = cAmt := by
          simp [paidFrom, hrc]
        rw [hp]
        rw [hsub] at h2
        exact ⟨hc0, le_of_lt hlt, Or.inl h2⟩
      · rw [runDebtor_cons_gt_rec dId cId dAmt cAmt cs h1 h2]
        obtain ⟨ih1, ih2, ih3⟩ :=
          ih (round2 (dAmt - cAmt)) (isCent_round2 _) (round2_nonneg _ (by linarith)) hccs hcs
        have hp : paidFrom ((⟨dId, cId, round2 cAmt⟩ : Transfer)
              :: (runDebtor dId (round2 (dAmt - cAmt)) cs).1) dId
            = cAmt + paidFrom (runDebtor dId (round2 (dAmt - cAmt)) cs).1 dId := by
          rw [paidFrom_cons]
          simp [hrc]
        rw [hp]
        refine ⟨by linarith [hsub], by linarith [hsub], ?_⟩
        rcases ih3 with h | h
        · exact Or.inl (by linarith [hsub])
        · exact Or.inr h

/-- The creditor queue left after one debtor keeps all queue invariants: cent
amounts above one cent, distinct keys drawn from the original queue, and the
debtor's own key still absent. -/
theorem runDebtor_rest (dId : String) (cs : List (String × ℚ)) (dAmt : ℚ)
    (hcc : ∀ p ∈ cs, isCent p.2) (hcpos : ∀ p ∈ cs, 1/100 < p.2)
    (hnd : (cs.map Prod.fst).Nodup) (hdni : dId ∉ cs.map Prod.fst) :
    (∀ p ∈ (runDebtor dId dAmt cs).2, isCent p.2 ∧ 1/100 < p.2) ∧
    ((runDebtor dId dAmt cs).2.map Prod.fst).Nodup ∧
    (∀ k ∈ (runDebtor dId dAmt cs).2.map Prod.fst, k ∈ cs.map Prod.fst) ∧
    dId ∉ (runDebtor dId dAmt cs).2.map Prod.fst := by
  induction cs generalizing dAmt with
  | nil =>
    rw [runDebtor_nil]
    exact ⟨fun p hp => absurd hp (List.not_mem_nil p),
      List.nodup_nil, fun k hk => absurd hk (List.not_mem_nil k),
      List.not_mem_nil dId⟩
  | cons c cs ih =>
    obtain ⟨cId, cAmt⟩ := c
    have hcs : ∀ p ∈ cs, 1/100 < p.2 := fun p hp => hcpos p (List.mem_cons_of_mem _ hp)
    have hccs : ∀ p ∈ cs, isCent p.2 := fun p hp => hcc p (List.mem_cons_of_mem _ hp)
    have hndt : (cs.map Prod.fst).Nodup := (List.nodup_cons.1 (by simpa using hnd)).2
    have hdnit : dId ∉ cs.map Prod.fst := by
      intro h
      exact hdni (by simp only [List.map_cons]; exact List.mem_cons_of_mem _ h)
    have hfacts : ∀ p ∈ cs, isCent p.2 ∧ 1/100 < p.2 := fun p hp => ⟨hccs p hp, hcs p hp⟩
    have hsub : ∀ k ∈ cs.map Prod.fst, k ∈ ((cId, cAmt) :: cs).map Prod.fst := by
      intro k hk
      simp only [List.map_cons]
      exact List.mem_cons_of_mem _ hk
    by_cases h1 : dAmt ≤ cAmt
    · by_cases h2 : round2 (cAmt - dAmt) ≤ 1/100
      · rw [runDebtor_cons_le dId cId dAmt cAmt cs h1 h2]
        exact ⟨hfacts, hndt, hsub, hdnit⟩
      · rw [runDebtor_cons_le_rem dId cId dAmt cAmt cs h1 h2]
        refine ⟨?_, ?_, ?_, ?_⟩
        · intro p hp
          rcases List.mem_cons.1 hp with h | h
          · subst h
            exact ⟨isCent_round2 _, lt_of_not_le h2⟩
          · exact hfacts p h
        · simpa using hnd
        · intro k hk
          simpa using hk
        · simpa using hdni
    · by_cases h2 : round2 (dAmt - cAmt) ≤ 1/100
      · rw [runDebtor_cons_gt_done dId cId dAmt cAmt cs h1 h2]
        exact ⟨hfacts, hndt, hsub, hdnit⟩
      · rw [runDebtor_cons_gt_rec dId cId dAmt cAmt cs h1 h2]
        obtain ⟨ih1, ih2, ih3, ih4⟩ := ih (round2 (dAmt - cAmt)) hccs hcs hndt hdnit
        exact ⟨ih1, ih2, fun k hk => hsub k (ih3 k hk), ih4⟩

/-- Structure of one debtor's run over the creditor queue: a prefix of creditors
is paid down to at most one cent each, and the remaining queue is the untouched
suffix, possibly with a partially-paid creditor at its head. -/
theorem runDebtor_split (dId : String) (cs : List (String × ℚ)) (dAmt : ℚ)
    (hdc : isCent dAmt) (hdpos : 0 ≤ dAmt)
    (hcc : ∀ p ∈ cs, isCent p.2) (hcpos : ∀ p ∈ cs, 0 ≤ p.2)
    (hnd : (cs.map Prod.fst).Nodup) :
    ∃ pre suf, cs = pre ++ suf ∧
      (∀ p ∈ pre, 0 ≤ paidTo (runDebtor dId dAmt cs).1 p.1 ∧
        paidTo (runDebtor dId dAmt cs).1 p.1 ≤ p.2 ∧
        p.2 - paidTo (runDebtor dId dAmt cs).1 p.1 ≤ 1/100) ∧
      (((runDebtor dId dAmt cs).2 = suf ∧ ∀ p ∈ suf, paidTo (runDebtor dId dAmt cs).1 p.1 = 0) ∨
        (∃ cH rest, suf = cH :: rest ∧
          0 ≤ paidTo (runDebtor dId dAmt cs).1 cH.1 ∧
          paidTo (runDebtor dId dAmt cs).1 cH.1 ≤ cH.2 ∧
          (runDebtor dId dAmt cs).2
            = (cH.1, cH.2 - paidTo (runDebtor dId dAmt cs).1 cH.1) :: rest ∧
          1/100 < cH.2 - paidTo (runDebtor dId dAmt cs).1 cH.1 ∧
          ∀ p ∈ rest, paidTo (runDebtor dId dAmt cs).1 p.1 = 0)) := by
  induction cs generalizing dAmt with
  | nil =>
    refine ⟨[], [], rfl, by simp, Or.inl ⟨by rw [runDebtor_nil], by simp⟩⟩
  | cons c cs ih =>
    obtain ⟨cId, cAmt⟩ := c
    have hc0 : 0 ≤ cAmt := hcpos (cId, cAmt) (List.mem_cons_self _ _)
    have hcc0 : isCent cAmt := hcc (cId, cAmt) (List.mem_cons_self _ _)
    have hcs : ∀ p ∈ cs, 0 ≤ p.2 := fun p hp => hcpos p (List.mem_cons_of_mem _ hp)
    have hccs : ∀ p ∈ cs, isCent p.2 := fun p hp => hcc p (List.mem_cons_of_mem _ hp)
    have hrd : round2 dAmt = dAmt := round2_of_isCent hdc
    have hrc : round2 cAmt = cAmt := round2_of_isCent hcc0
    have hcd : round2 (cAmt - dAmt) = cAmt - dAmt := round2_of_isCent (isCent_sub hcc0 hdc)
    have hnd2 : (cId :: cs.map Prod.fst).Nodup := by simpa using hnd
    have hndt : (cs.map Prod.fst).Nodup := (List.nodup_cons.1 hnd2).2
    have hkey : cId ∉ cs.map Prod.fst := (List.nodup_cons.1 hnd2).1
    have hkne : ∀ p ∈ cs, cId ≠ p.1 := by
      intro p hp he
      exact hkey (he ▸ List.mem_map_of_mem Prod.fst hp)
    by_cases h1 : dAmt ≤ cAmt
    · by_cases h2 : round2 (cAmt - dAmt) ≤ 1/100
      · rw [runDebtor_cons_le dId cId dAmt cAmt cs h1 h2]
        have hpc : paidTo [(⟨dId, cId, round2 dAmt⟩ : Transfer)] cId = dAmt := by
          simp [paidTo, hrd]
        have hpo : ∀ k, cId ≠ k → paidTo [(⟨dId, cId, round2 dAmt⟩ : Transfer)] k = 0 := by
          intro k hk
          simp [paidTo, hk]
        refine ⟨[(cId, cAmt)], cs, rfl, ?_, Or.inl ⟨rfl, ?_⟩⟩
        · intro p hp
          rw [List.mem_singleton] at hp
          subst hp
          rw [hpc]
          rw [hcd] at h2
          exact ⟨hdpos, h1, h2⟩
        · intro p hp
          exact hpo p.1 (hkne p hp)
      · rw [runDebtor_cons_le_rem dId cId dAmt cAmt cs h1 h2]
        have hpc : paidTo [(⟨dId, cId, round2 dAmt⟩ : Transfer)] cId = dAmt := by
          simp [paidTo, hrd]
        have hpo : ∀ k, cId ≠ k → paidTo [(⟨dId, cId, round2 dAmt⟩ : Transfer)] k = 0 := by
          intro k hk
          simp [paidTo, hk]
        refine ⟨[], (cId, cAmt) :: cs, rfl, by simp, Or.inr ⟨(cId, cAmt), cs, rfl, ?_, ?_, ?_, ?_, ?_⟩⟩
        · rw [hpc]; exact hdpos
        · rw [hpc]; exact h1
        · rw [hpc, hcd]
        · rw [hpc]
          rw [hcd] at h2
          exact lt_of_not_le h2
        · intro p hp
          exact hpo p.1 (hkne p hp)
    · have hlt : cAmt < dAmt := lt_of_not_le h1
      by_cases h2 : round2 (dAmt - cAmt) ≤ 1/100
      · rw [runDebtor_cons_gt_done dId cId dAmt cAmt cs h1 h2]
        have hpc : paidTo [(⟨dId, cId, round2 cAmt⟩ : Transfer)] cId = cAmt := by
          simp [paidTo, hrc]
        have hpo : ∀ k, cId ≠ k → paidTo [(⟨dId, cId, round2 cAmt⟩ : Transfer)] k = 0 := by
          intro k hk
          simp [paidTo, hk]
        refine ⟨[(cId, cAmt)], cs, rfl, ?_, Or.inl ⟨rfl, ?_⟩⟩
        · intro p hp
          rw [List.mem_singleton] at hp
          subst hp
          rw [hpc]
          exact ⟨hc0, le_refl cAmt, by linarith⟩
        · intro p hp
          exact hpo p.1 (hkne p hp)
      · rw [runDebtor_cons_gt_rec dId cId dAmt cAmt cs h1 h2]
        have hrem0 : 0 ≤ round2 (dAmt - cAmt) := round2_nonneg _ (by linarith)
        obtain ⟨pre1, suf1, hsplit, hpre1, hbr1⟩ :=
          ih (round2 (dAmt - cAmt)) (isCent_round2 _) hrem0 hccs hcs hndt
        have htr := runDebtor_transfers dId cs (round2 (dAmt - cAmt)) hrem0 hcs
        have htcz : paidTo (runDebtor dId (round2 (dAmt - cAmt)) cs).1 cId = 0 := by
          apply paidTo_eq_zero
          intro t ht he
          exact hkey (he ▸ (htr t ht).2.1)
        have hstep : ∀ k, paidTo ((⟨dId, cId, round2 cAmt⟩ : Transfer)
              :: (runDebtor dId (round2 (dAmt - cAmt)) cs).1) k
            = (if cId = k then cAmt else 0)
              + paidTo (runDebtor dId (round2 (dAmt - cAmt)) cs).1 k := by
          intro k
          rw [paidTo_cons]
          simp [hrc]
        have hstep_o : ∀ k, cId ≠ k → paidTo ((⟨dId, cId, round2 cAmt⟩ : Transfer)
              :: (runDebtor dId (round2 (dAmt - cAmt)) cs).1) k
            = paidTo (runDebtor dId (round2 (dAmt - cAmt)) cs).1 k := by
          intro k hk
          rw [hstep k, if_neg hk]
          ring
        have hmem_cs : ∀ p : String × ℚ, p ∈ pre1 ∨ p ∈ suf1 → cId ≠ p.1 := by
          intro p hp
          apply hkne
          rw [hsplit]
          rcases hp with h | h
          · exact List.mem_append_left _ h
          · exact List.mem_append_right _ h
        refine ⟨(cId, cAmt) :: pre1, suf1, by rw [hsplit]; rfl, ?_, ?_⟩
        · intro p hp
          rcases List.mem_cons.1 hp with h | h
          · subst h
            rw [hstep cId, if_pos rfl, htcz]
            exact ⟨by linarith, by linarith, by linarith⟩
          · rw [hstep_o p.1 (hmem_cs p (Or.inl h))]
            exact hpre1 p h
        · rcases hbr1 with ⟨hrd2, hzero⟩ | ⟨cH, rest, hsuf, hz, hle, heq, hgt, hzr⟩
          · refine Or.inl ⟨hrd2, ?_⟩
            intro p hp
            rw [hstep_o p.1 (hmem_cs p (Or.inr hp))]
            exact hzero p hp
          · have hcH : cId ≠ cH.1 := hmem_cs cH (Or.inr (hsuf ▸ List.mem_cons_self _ _))
            refine Or.inr ⟨cH, rest, hsuf, ?_, ?_, ?_, ?_, ?_⟩
            · rw [hstep_o cH.1 hcH]; exact hz
            · rw [hstep_o cH.1 hcH]; exact hle
            · rw [hstep_o cH.1 hcH]; exact heq
            · rw [hstep_o cH.1 hcH]; exact hgt
            · intro p hp
              have hps : p ∈ suf1 := hsuf ▸ List.mem_cons_of_mem cH hp
              rw [hstep_o p.1 (hmem_cs p (Or.inr hps))]
              exact hzr p hp

theorem greedyLoop_cons (dId : String) (dAmt : ℚ) (ds cs : List (String × ℚ)) :
    greedyLoop ((dId, dAmt) :: ds) cs
      = (runDebtor dId dAmt cs).1 ++ greedyLoop ds (runDebtor dId dAmt cs).2 := rfl

theorem residualD_nil (ts : List Transfer) : residualD ts [] = 0 := rfl

theorem residualC_nil (ts : List Transfer) : residualC ts [] = 0 := rfl

theorem residualD_cons (ts : List Transfer) (p : String × ℚ) (l : List (String × ℚ)) :
    residualD ts (p :: l) = (p.2 - paidFrom ts p.1) + residualD ts l := by
  simp [residualD]

theorem residualC_cons (ts : List Transfer) (p : String × ℚ) (l : List (String × ℚ)) :
    residualC ts (p :: l) = (p.2 - paidTo ts p.1) + residualC ts l := by
  simp [residualC]

theorem residualC_append (ts : List Transfer) (l1 l2 : List (String × ℚ)) :
    residualC ts (l1 ++ l2) = residualC ts l1 + residualC ts l2 := by
  simp [residualC]

theorem residualD_eq_of_paid_eq (ts ts2 : List Transfer) (l : List (String × ℚ))
    (h : ∀ p ∈ l, paidFrom ts p.1 = paidFrom ts2 p.1) : residualD ts l = residualD ts2 l := by
  unfold residualD
  congr 1
  apply List.map_congr_left
  intro p hp
  rw [h p hp]

theorem residualC_eq_of_paid_eq (ts ts2 : List Transfer) (l : List (String × ℚ))
    (h : ∀ p ∈ l, paidTo ts p.1 = paidTo ts2 p.1) : residualC ts l = residualC ts2 l := by
  unfold residualC
  congr 1
  apply List.map_congr_left
  intro p hp
  rw [h p hp]

theorem residualD_le_of_forall (ts : List Transfer) (l : List (String × ℚ))
    (h : ∀ p ∈ l, p.2 - paidFrom ts p.1 ≤ 1/100) : residualD ts l ≤ l.length * (1/100) :=
  sum_map_le_length_mul l _ _ h

theorem residualC_le_of_forall (ts : List Transfer) (l : List (String × ℚ))
    (h : ∀ p ∈ l, p.2 - paidTo ts p.1 ≤ 1/100) : residualC ts l ≤ l.length * (1/100) :=
  sum_map_le_length_mul l _ _ h

/-- Invariants of the full greedy loop: every transfer goes from a listed debtor
to a listed creditor with a nonnegative cent amount, nobody pays or receives
more than their listed amount, and on exit either the debtor side or the
creditor side is within one cent per entry of fully settled. -/
theorem greedyLoop_spec (ds : List (String × ℚ)) :
    ∀ cs : List (String × ℚ),
    (∀ p ∈ ds, isCent p.2) → (∀ p ∈ ds, 1/100 < p.2) →
    (∀ p ∈ cs, isCent p.2) → (∀ p ∈ cs, 1/100 < p.2) →
    (ds.map Prod.fst ++ cs.map Prod.fst).Nodup →
    (∀ t ∈ greedyLoop ds cs,
      t.tfrom ∈ ds.map Prod.fst ∧ t.tto ∈ cs.map Prod.fst ∧ 0 ≤ t.amount ∧ isCent t.amount) ∧
    (∀ p ∈ ds, 0 ≤ paidFrom (greedyLoop ds cs) p.1 ∧ paidFrom (greedyLoop ds cs) p.1 ≤ p.2) ∧
    (∀ p ∈ cs, 0 ≤ paidTo (greedyLoop ds cs) p.1 ∧ paidTo (greedyLoop ds cs) p.1 ≤ p.2) ∧
    (residualD (greedyLoop ds cs) ds ≤ ds.length * (1/100) ∨
      residualC (greedyLoop ds cs) cs ≤ cs.length * (1/100)) := by
  induction ds with
  | nil =>
    intro cs _ _ _ hcpos _
    refine ⟨?_, ?_, ?_, Or.inl ?_⟩
    · intro t ht
      exact absurd ht (List.not_mem_nil t)
    · intro p hp
      exact absurd hp (List.not_mem_nil p)
    · intro p hp
      have := hcpos p hp
      constructor
      · show (0:ℚ) ≤ paidTo [] p.1
        rw [paidTo_nil]
      · show paidTo [] p.1 ≤ p.2
        rw [paidTo_nil]
        linarith
    · show residualD (greedyLoop [] cs) [] ≤ ([] : List (String × ℚ)).length * (1/100)
      rw [residualD_nil]
      simp
  | cons d ds ih =>
    obtain ⟨dId, dAmt⟩ := d
    intro cs hdc hdpos hcc hcpos hnd
    have hdAc : isCent dAmt := (hdc (dId, dAmt) (List.mem_cons_self _ _))
    have hdA1 : 1/100 < dAmt := (hdpos (dId, dAmt) (List.mem_cons_self _ _))
    have hdA0 : 0 ≤ dAmt := by linarith
    have hdct : ∀ p ∈ ds, isCent p.2 := fun p hp => hdc p (List.mem_cons_of_mem _ hp)
    have hdpt : ∀ p ∈ ds, 1/100 < p.2 := fun p hp => hdpos p (List.mem_cons_of_mem _ hp)
    have hcpos0 : ∀ p ∈ cs, 0 ≤ p.2 := fun p hp => by linarith [hcpos p hp]
    have hnd1 : ((dId :: ds.map Prod.fst) ++ cs.map Prod.fst).Nodup := by simpa using hnd
    obtain ⟨hndL, hndR, hdisj⟩ := List.nodup_append.1 hnd1
    have hdId_ds : dId ∉ ds.map Prod.fst := (List.nodup_cons.1 hndL).1
    have hnd_ds : (ds.map Prod.fst).Nodup := (List.nodup_cons.1 hndL).2
    have hdId_cs : dId ∉ cs.map Prod.fst := fun h => hdisj (List.mem_cons_self _ _) h
    have htr := runDebtor_transfers dId cs dAmt hdA0 hcpos0
    have hpf := runDebtor_paidFrom dId cs dAmt hdAc hdA0 hcc hcpos0
    obtain ⟨pre, suf, hsplit, hpre, hbr⟩ := runDebtor_split dId cs dAmt hdAc hdA0 hcc hcpos0 hndR
    obtain ⟨hrest1, hrest2, hrest3, hrest4⟩ := runDebtor_rest dId cs dAmt hcc hcpos hndR hdId_cs
    have hnd_cs2 : (ds.map Prod.fst ++ (runDebtor dId dAmt cs).2.map Prod.fst).Nodup := by
      rw [List.nodup_append]
      refine ⟨hnd_ds, hrest2, ?_⟩
      intro k hk1 hk2
      exact hdisj (List.mem_cons_of_mem _ hk1) (hrest3 k hk2)
    obtain ⟨G1, G2, G3, G4⟩ := ih (runDebtor dId dAmt cs).2 hdct hdpt
      (fun p hp => (hrest1 p hp).1) (fun p hp => (hrest1 p hp).2) hnd_cs2
    rw [greedyLoop_cons]
    have hfrom2 : ∀ t ∈ greedyLoop ds (runDebtor dId dAmt cs).2, t.tfrom ≠ dId := by
      intro t ht he
      exact hdId_ds (he ▸ (G1 t ht).1)
    have hfrom2z : paidFrom (greedyLoop ds (runDebtor dId dAmt cs).2) dId = 0 :=
      paidFrom_eq_zero hfrom2
    have hfrom1z : ∀ k, dId ≠ k → paidFrom (runDebtor dId dAmt cs).1 k = 0 := by
      intro k hk
      apply paidFrom_eq_zero
      intro t ht he
      exact hk ((htr t ht).1 ▸ he)
    have hdsne : ∀ p : String × ℚ, p ∈ ds → dId ≠ p.1 := by
      intro p hp he
      exact hdId_ds (he ▸ List.mem_map_of_mem Prod.fst hp)
    have hpf_split : ∀ k, paidFrom ((runDebtor dId dAmt cs).1
          ++ greedyLoop ds (runDebtor dId dAmt cs).2) k
        = paidFrom (runDebtor dId dAmt cs).1 k
          + paidFrom (greedyLoop ds (runDebtor dId dAmt cs).2) k :=
      fun k => paidFrom_append _ _ k
    have hpt_split : ∀ k, paidTo ((runDebtor dId dAmt cs).1
          ++ greedyLoop ds (runDebtor dId dAmt cs).2) k
        = paidTo (runDebtor dId dAmt cs).1 k
          + paidTo (greedyLoop ds (runDebtor dId dAmt cs).2) k :=
      fun k => paidTo_append _ _ k
    have hids_cs2_suf : ∀ k ∈ (runDebtor dId dAmt cs).2.map Prod.fst, k ∈ suf.map Prod.fst := by
      rcases hbr with ⟨hrd2, _⟩ | ⟨cH, rest, hsuf, _, _, heq, _, _⟩
      · intro k hk
        rw [hrd2] at hk
        exact hk
      · intro k hk
        rw [heq] at hk
        rw [hsuf]
        simpa using hk
    have hnds_ps : (pre.map Prod.fst).Disjoint (suf.map Prod.fst) := by
      have : ((pre ++ suf).map Prod.fst).Nodup := hsplit ▸ hndR
      rw [List.map_append, List.nodup_append] at this
      exact this.2.2
    have hto2z : ∀ p : String × ℚ, p ∈ pre
        → paidTo (greedyLoop ds (runDebtor dId dAmt cs).2) p.1 = 0 := by
      intro p hp
      apply paidTo_eq_zero
      intro t ht he
      have h1 : t.tto ∈ (runDebtor dId dAmt cs).2.map Prod.fst := (G1 t ht).2.1
      have h2 : p.1 ∈ suf.map Prod.fst := hids_cs2_suf p.1 (he ▸ h1)
      exact hnds_ps (List.mem_map_of_mem Prod.fst hp) h2
    have hto1z_suf : ∀ p : String × ℚ, (∀ q ∈ suf, paidTo (runDebtor dId dAmt cs).1 q.1 = 0)
        → p ∈ suf → paidTo (runDebtor dId dAmt cs).1 p.1 = 0 := fun p h hp => h p hp
    refine ⟨?_, ?_, ?_, ?_⟩
    · intro t ht
      rcases List.mem_append.1 ht with h | h
      · obtain ⟨ha, hb, hcq, hdq⟩ := htr t h
        exact ⟨by simp only [List.map_cons]; exact ha ▸ List.mem_cons_self _ _, hb, hcq, hdq⟩
      · obtain ⟨ha, hb, hcq, hdq⟩ := G1 t h
        exact ⟨by simp only [List.map_cons]; exact List.mem_cons_of_mem _ ha,
          hrest3 t.tto hb, hcq, hdq⟩
    · intro p hp
      rcases List.mem_cons.1 hp with h | h
      · subst h
        rw [hpf_split, hfrom2z]
        exact ⟨by linarith [hpf.1], by linarith [hpf.2.1]⟩
      · rw [hpf_split, hfrom1z p.1 (hdsne p h)]
        have := G2 p h
        exact ⟨by linarith [this.1], by linarith [this.2]⟩
    · intro p hp
      rw [hsplit] at hp
      rw [hpt_split]
      rcases List.mem_append.1 hp with h | h
      · have h2z := hto2z p h
        have := hpre p h
        rw [h2z]
        exact ⟨by linarith [this.1], by linarith [this.2.1]⟩
      · rcases hbr with ⟨hrd2, hzero⟩ | ⟨cH, rest, hsuf, hz, hle, heq, hgt, hzr⟩
        · rw [hzero p h]
          have hp2 : p ∈ (runDebtor dId dAmt cs).2 := hrd2 ▸ h
          have := G3 p hp2
          exact ⟨by linarith [this.1], by linarith [this.2]⟩
        · rw [hsuf] at h
          rcases List.mem_cons.1 h with h | h
          · subst h
            have hmem : ((p.1, p.2 - paidTo (runDebtor dId dAmt cs).1 p.1))
                ∈ (runDebtor dId dAmt cs).2 := by
              rw [heq]
              exact List.mem_cons_self _ _
            have := G3 _ hmem
            dsimp only at this
            exact ⟨by linarith [this.1, hz], by linarith [this.2]⟩
          · rw [hzr p h]
            have hp2 : p ∈ (runDebtor dId dAmt cs).2 := by
              rw [heq]
              exact List.mem_cons_of_mem _ h
            have := G3 p hp2
            exact ⟨by linarith [this.1], by linarith [this.2]⟩
    · rcases G4 with hG | hG
      · rcases hpf.2.2 with hdone | hempty
        · refine Or.inl ?_
          rw [residualD_cons]
          have htail : residualD ((runDebtor dId dAmt cs).1
                ++ greedyLoop ds (runDebtor dId dAmt cs).2) ds
              = residualD (greedyLoop ds (runDebtor dId dAmt cs).2) ds := by
            apply residualD_eq_of_paid_eq
            intro p hp
            rw [hpf_split, hfrom1z p.1 (hdsne p hp)]
            ring
          rw [htail, hpf_split, hfrom2z]
          have hlen : (((dId, dAmt) :: ds).length : ℚ) = (ds.length : ℚ) + 1 := by
            push_cast [List.length_cons]
            ring
          rw [List.length_cons]
          push_cast
          linarith [hG]
        · refine Or.inr ?_
          have hts2 : greedyLoop ds (runDebtor dId dAmt cs).2 = [] := by
            rw [hempty]
            exact greedyLoop_nil_right ds
          have hsufnil : suf = [] := by
            rcases hbr with ⟨hrd2, _⟩ | ⟨cH, rest, hsuf, _, _, heq, _, _⟩
            · rw [← hrd2, hempty]
            · rw [heq] at hempty
              exact absurd hempty (List.cons_ne_nil _ _)
          apply residualC_le_of_forall
          intro p hp
          rw [hpt_split, hts2, paidTo_nil]
          rw [hsplit, hsufnil, List.append_nil] at hp
          linarith [(hpre p hp).2.2]
      · refine Or.inr ?_
        have hgoal_eq : residualC ((runDebtor dId dAmt cs).1
              ++ greedyLoop ds (runDebtor dId dAmt cs).2) cs
            = residualC ((runDebtor dId dAmt cs).1
                ++ greedyLoop ds (runDebtor dId dAmt cs).2) pre
              + residualC ((runDebtor dId dAmt cs).1
                ++ greedyLoop ds (runDebtor dId dAmt cs).2) suf := by
          rw [← residualC_append]
          rw [hsplit]
        have hlen : cs.length = pre.length + suf.length := by
          rw [hsplit]
          exact List.length_append _ _
        have hpre_bound : residualC ((runDebtor dId dAmt cs).1
              ++ greedyLoop ds (runDebtor dId dAmt cs).2) pre ≤ pre.length * (1/100) := by
          apply residualC_le_of_forall
          intro p hp
          rw [hpt_split, hto2z p hp]
          linarith [(hpre p hp).2.2]
        have hsuf_eq : residualC ((runDebtor dId dAmt cs).1
              ++ greedyLoop ds (runDebtor dId dAmt cs).2) suf
            = residualC (greedyLoop ds (runDebtor dId dAmt cs).2) (runDebtor dId dAmt cs).2 := by
          rcases hbr with ⟨hrd2, hzero⟩ | ⟨cH, rest, hsuf, hz, hle, heq, hgt, hzr⟩
          · rw [← hrd2]
            apply residualC_eq_of_paid_eq
            intro p hp
            rw [hpt_split, hzero p (hrd2 ▸ hp)]
            ring
          · have hrest_eq : residualC ((runDebtor dId dAmt cs).1
                  ++ greedyLoop ds (runDebtor dId dAmt cs).2) rest
                = residualC (greedyLoop ds (runDebtor dId dAmt cs).2) rest := by
              apply residualC_eq_of_paid_eq
              intro p hp
              rw [hpt_split, hzr p hp]
              ring
            have hRHS : residualC (greedyLoop ds (runDebtor dId dAmt cs).2)
                  (runDebtor dId dAmt cs).2
                = ((cH.2 - paidTo (runDebtor dId dAmt cs).1 cH.1)
                    - paidTo (greedyLoop ds (runDebtor dId dAmt cs).2) cH.1)
                  + residualC (greedyLoop ds (runDebtor dId dAmt cs).2) rest := by
              nth_rewrite 2 [heq]
              rw [residualC_cons]
            rw [hsuf, residualC_cons, hRHS, hrest_eq, hpt_split]
            ring
        have hsuf_len : ((runDebtor dId dAmt cs).2.length : ℚ) ≤ (suf.length : ℚ) := by
          rcases hbr with ⟨hrd2, _⟩ | ⟨cH, rest, hsuf, _, _, heq, _, _⟩
          · rw [hrd2]
          · rw [hsuf, heq]
            simp
        have hlenq : (cs.length : ℚ) = (pre.length : ℚ) + (suf.length : ℚ) := by
          rw [hlen]
          push_cast
          ring
        rw [hgoal_eq, hlenq]
        linarith [hpre_bound, hsuf_eq, hG, hsuf_len]

theorem mem_creditorsOf {bs : List (String × ℚ)} {q : String × ℚ} :
    q ∈ creditorsOf bs ↔ ∃ p ∈ bs, 1/100 < round2 p.2 ∧ q = (p.1, round2 p.2) := by
  unfold creditorsOf
  rw [List.mem_filterMap]
  constructor
  · rintro ⟨p, hp, hf⟩
    by_cases h : 1/100 < round2 p.2
    · rw [if_pos h] at hf
      exact ⟨p, hp, h, (Option.some_inj.1 hf).symm⟩
    · rw [if_neg h] at hf
      exact Option.noConfusion hf
  · rintro ⟨p, hp, h, rfl⟩
    exact ⟨p, hp, by rw [if_pos h]⟩

theorem mem_debtorsOf {bs : List (String × ℚ)} {q : String × ℚ} :
    q ∈ debtorsOf bs ↔ ∃ p ∈ bs, round2 p.2 < -(1/100) ∧ q = (p.1, -(round2 p.2)) := by
  unfold debtorsOf
  rw [List.mem_filterMap]
  constructor
  · rintro ⟨p, hp, hf⟩
    by_cases h : round2 p.2 < -(1/100)
    · rw [if_pos h] at hf
      exact ⟨p, hp, h, (Option.some_inj.1 hf).symm⟩
    · rw [if_neg h] at hf
      exact Option.noConfusion hf
  · rintro ⟨p, hp, h, rfl⟩
    exact ⟨p, hp, by rw [if_pos h]⟩

theorem creditorsOf_cons (p : String × ℚ) (bs : List (String × ℚ)) :
    creditorsOf (p :: bs) = if 1/100 < round2 p.2
      then (p.1, round2 p.2) :: creditorsOf bs else creditorsOf bs := by
  unfold creditorsOf
  rw [List.filterMap_cons]
  by_cases h : 1/100 < round2 p.2
  · rw [if_pos h, if_pos h]
  · rw [if_neg h, if_neg h]

theorem debtorsOf_cons (p : String × ℚ) (bs : List (String × ℚ)) :
    debtorsOf (p :: bs) = if round2 p.2 < -(1/100)
      then (p.1, -(round2 p.2)) :: debtorsOf bs else debtorsOf bs := by
  unfold debtorsOf
  rw [List.filterMap_cons]
  by_cases h : round2 p.2 < -(1/100)
  · rw [if_pos h, if_pos h]
  · rw [if_neg h, if_neg h]

theorem settledOf_cons (p : String × ℚ) (bs : List (String × ℚ)) :
    settledOf (p :: bs) = if -(1/100) ≤ round2 p.2 ∧ round2 p.2 ≤ 1/100
      then p :: settledOf bs else settledOf bs := by
  unfold settledOf
  rw [List.filter_cons]
  by_cases h : -(1/100) ≤ round2 p.2 ∧ round2 p.2 ≤ 1/100
  · rw [if_pos (decide_eq_true h), if_pos h]
  · rw [if_neg ?hneg, if_neg h]
    case hneg =>
      intro hcontra
      exact h (of_decide_eq_true hcontra)

theorem settledOf_sublist (bs : List (String × ℚ)) : (settledOf bs).Sublist bs :=
  List.filter_sublist bs

theorem nodup_key_eq {bs : List (String × ℚ)} (hnd : (bs.map Prod.fst).Nodup)
    {p q : String × ℚ} (hp : p ∈ bs) (hq : q ∈ bs) (h : p.1 = q.1) : p = q := by
  induction bs with
  | nil => exact absurd hp (List.not_mem_nil p)
  | cons a bs ih =>
    rw [List.map_cons, List.nodup_cons] at hnd
    rcases List.mem_cons.1 hp with h1 | h1 <;> rcases List.mem_cons.1 hq with h2 | h2
    · rw [h1, h2]
    · exfalso
      apply hnd.1
      rw [← h1, h]
      exact List.mem_map_of_mem Prod.fst h2
    · exfalso
      apply hnd.1
      rw [← h2, ← h]
      exact List.mem_map_of_mem Prod.fst h1
    · exact ih hnd.2 h1 h2

theorem alGet_of_mem_nodup {bs : List (String × ℚ)} (hnd : (bs.map Prod.fst).Nodup)
    {p : String × ℚ} (hp : p ∈ bs) : alGet bs p.1 = p.2 := by
  induction bs with
  | nil => exact absurd hp (List.not_mem_nil p)
  | cons a bs ih =>
    rw [List.map_cons, List.nodup_cons] at hnd
    rw [alGet_cons]
    by_cases h : a.1 = p.1
    · rw [if_pos h]
      have : a = p := nodup_key_eq (by rw [List.map_cons]; exact List.nodup_cons.2 hnd)
        (List.mem_cons_self _ _) hp h
      rw [this]
    · rw [if_neg h]
      rcases List.mem_cons.1 hp with h1 | h1
      · exact absurd (show a.1 = p.1 by rw [h1]) h
      · exact ih hnd.2 h1

theorem debtors_ids_sublist (bs : List (String × ℚ)) :
    ((debtorsOf bs).map Prod.fst).Sublist (bs.map Prod.fst) := by
  induction bs with
  | nil => exact List.Sublist.refl _
  | cons p bs ih =>
    rw [debtorsOf_cons, List.map_cons]
    by_cases h : round2 p.2 < -(1/100)
    · rw [if_pos h, List.map_cons]
      exact List.Sublist.cons₂ p.1 ih
    · rw [if_neg h]
      exact List.Sublist.cons p.1 ih

theorem creditors_ids_sublist (bs : List (String × ℚ)) :
    ((creditorsOf bs).map Prod.fst).Sublist (bs.map Prod.fst) := by
  induction bs with
  | nil => exact List.Sublist.refl _
  | cons p bs ih =>
    rw [creditorsOf_cons, List.map_cons]
    by_cases h : 1/100 < round2 p.2
    · rw [if_pos h, List.map_cons]
      exact List.Sublist.cons₂ p.1 ih
    · rw [if_neg h]
      exact List.Sublist.cons p.1 ih

theorem ids_deb_cred_nodup {bs : List (String × ℚ)} (hnd : (bs.map Prod.fst).Nodup) :
    ((debtorsOf bs).map Prod.fst ++ (creditorsOf bs).map Prod.fst).Nodup := by
  rw [List.nodup_append]
  refine ⟨(debtors_ids_sublist bs).nodup hnd, (creditors_ids_sublist bs).nodup hnd, ?_⟩
  intro k hkD hkC
  rcases List.mem_map.1 hkD with ⟨qd, hqd, hqdk⟩
  rcases List.mem_map.1 hkC with ⟨qc, hqc, hqck⟩
  rcases mem_debtorsOf.1 hqd with ⟨pd, hpd, hcd, hqd_eq⟩
  rcases mem_creditorsOf.1 hqc with ⟨pc, hpc, hcc, hqc_eq⟩
  have hk1 : pd.1 = k := by rw [← hqdk, hqd_eq]
  have hk2 : pc.1 = k := by rw [← hqck, hqc_eq]
  have : pd = pc := nodup_key_eq hnd hpd hpc (by rw [hk1, hk2])
  rw [this] at hcd
  linarith [hcd, hcc]

theorem amountSum_cons (q : String × ℚ) (l : List (String × ℚ)) :
    amountSum (q :: l) = q.2 + amountSum l := by
  simp [amountSum]

/-- Every balance entry lands in exactly one of the creditor, debtor or settled
buckets, and (for cent-valued balances) the three bucket sums recombine to the
original total. -/
theorem partition_bs (bs : List (String × ℚ)) (hc : ∀ p ∈ bs, isCent p.2) :
    amountSum (creditorsOf bs) - amountSum (debtorsOf bs)
        + amountSum (settledOf bs) = (bs.map Prod.snd).sum ∧
    (creditorsOf bs).length + (debtorsOf bs).length + (settledOf bs).length = bs.length := by
  induction bs with
  | nil => constructor <;> simp [amountSum, creditorsOf, debtorsOf, settledOf]
  | cons p bs ih =>
    obtain ⟨ih1, ih2⟩ := ih (fun q hq => hc q (List.mem_cons_of_mem _ hq))
    have hcp : round2 p.2 = p.2 := round2_of_isCent (hc p (List.mem_cons_self _ _))
    rw [creditorsOf_cons, debtorsOf_cons, settledOf_cons, hcp]
    rw [List.map_cons, List.sum_cons]
    by_cases h1 : 1/100 < p.2
    · rw [if_pos h1, if_neg (show ¬ p.2 < -(1/100) by intro hcon; linarith),
        if_neg (show ¬ (-(1/100) ≤ p.2 ∧ p.2 ≤ 1/100) by rintro ⟨-, hb⟩; linarith)]
      refine ⟨?_, ?_⟩
      · rw [amountSum_cons]
        dsimp only
        linarith [ih1]
      · simp only [List.length_cons]
        omega
    · by_cases h2 : p.2 < -(1/100)
      · rw [if_neg h1, if_pos h2,
          if_neg (show ¬ (-(1/100) ≤ p.2 ∧ p.2 ≤ 1/100) by rintro ⟨ha, -⟩; linarith)]
        refine ⟨?_, ?_⟩
        · rw [amountSum_cons]
          dsimp only
          linarith [ih1]
        · simp only [List.length_cons]
          omega
      · rw [if_neg h1, if_neg h2,
          if_pos (show -(1/100) ≤ p.2 ∧ p.2 ≤ 1/100 by constructor <;> linarith)]
        refine ⟨?_, ?_⟩
        · rw [amountSum_cons]
          linarith [ih1]
        · simp only [List.length_cons]
          omega

theorem settled_abs_le (bs : List (String × ℚ)) (hc : ∀ p ∈ bs, isCent p.2) :
    ∀ p ∈ settledOf bs, |p.2| ≤ 1/100 := by
  intro p hp
  have hmem : p ∈ bs := (settledOf_sublist bs).subset hp
  have hcond := List.of_mem_filter hp
  have hcp : round2 p.2 = p.2 := round2_of_isCent (hc p hmem)
  obtain ⟨ha, hb⟩ := of_decide_eq_true hcond
  rw [hcp] at ha hb
  exact abs_le.2 ⟨by linarith, hb⟩

theorem sum_if_unique (l : List (String × ℚ)) (hnd : (l.map Prod.fst).Nodup)
    (k : String) (hk : k ∈ l.map Prod.fst) (c : ℚ) :
    (l.map (fun p => if k = p.1 then c else 0)).sum = c := by
  induction l with
  | nil => exact absurd hk (List.not_mem_nil k)
  | cons a l ih =>
    rw [List.map_cons, List.nodup_cons] at hnd
    rw [List.map_cons, List.sum_cons]
    by_cases h : k = a.1
    · rw [if_pos h]
      have hz : (l.map (fun p => if k = p.1 then c else 0)).sum = 0 := by
        apply List.sum_eq_zero
        intro x hx
        rcases List.mem_map.1 hx with ⟨q, hq, rfl⟩
        rw [if_neg]
        intro he
        exact hnd.1 (h ▸ he ▸ List.mem_map_of_mem Prod.fst hq)
      rw [hz]
      ring
    · rw [if_neg h]
      rcases List.mem_cons.1
          (show k ∈ a.1 :: l.map Prod.fst by rw [← List.map_cons]; exact hk) with h1 | h1
      · exact absurd h1 h
      · rw [ih hnd.2 h1]
        ring

theorem sum_paidFrom_eq (l : List (String × ℚ)) (hnd : (l.map Prod.fst).Nodup) :
    ∀ ts : List Transfer, (∀ t ∈ ts, t.tfrom ∈ l.map Prod.fst) →
      (l.map (fun p => paidFrom ts p.1)).sum = (ts.map Transfer.amount).sum := by
  intro ts
  induction ts with
  | nil =>
    intro _
    rw [List.map_nil, List.sum_nil]
    apply List.sum_eq_zero
    intro x hx
    rcases List.mem_map.1 hx with ⟨q, hq, rfl⟩
    rfl
  | cons t ts ih =>
    intro h
    have hsplit : (l.map (fun p => paidFrom (t :: ts) p.1)).sum
        = (l.map (fun p => if t.tfrom = p.1 then t.amount else 0)).sum
          + (l.map (fun p => paidFrom ts p.1)).sum := by
      rw [← sum_map_add]
      apply congrArg
      apply List.map_congr_left
      intro p hp
      rw [paidFrom_cons]
    rw [hsplit, List.map_cons, List.sum_cons,
      sum_if_unique l hnd t.tfrom (h t (List.mem_cons_self _ _)) t.amount,
      ih (fun q hq => h q (List.mem_cons_of_mem _ hq))]

theorem sum_paidTo_eq (l : List (String × ℚ)) (hnd : (l.map Prod.fst).Nodup) :
    ∀ ts : List Transfer, (∀ t ∈ ts, t.tto ∈ l.map Prod.fst) →
      (l.map (fun p => paidTo ts p.1)).sum = (ts.map Transfer.amount).sum := by
  intro ts
  induction ts with
  | nil =>
    intro _
    rw [List.map_nil, List.sum_nil]
    apply List.sum_eq_zero
    intro x hx
    rcases List.mem_map.1 hx with ⟨q, hq, rfl⟩
    rfl
  | cons t ts ih =>
    intro h
    have hsplit : (l.map (fun p => paidTo (t :: ts) p.1)).sum
        = (l.map (fun p => if t.tto = p.1 then t.amount else 0)).sum
          + (l.map (fun p => paidTo ts p.1)).sum := by
      rw [← sum_map_add]
      apply congrArg
      apply List.map_congr_left
      intro p hp
      rw [paidTo_cons]
    rw [hsplit, List.map_cons, List.sum_cons,
      sum_if_unique l hnd t.tto (h t (List.mem_cons_self _ _)) t.amount,
      ih (fun q hq => h q (List.mem_cons_of_mem _ hq))]

theorem sortDescAmount_perm (l : List (String × ℚ)) : (sortDescAmount l).Perm l :=
  List.perm_insertionSort _ l

theorem residualD_eq_sub (ts : List Transfer) (l : List (String × ℚ))
    (hnd : (l.map Prod.fst).Nodup) (h : ∀ t ∈ ts, t.tfrom ∈ l.map Prod.fst) :
    residualD ts l = amountSum l - (ts.map Transfer.amount).sum := by
  unfold residualD amountSum
  rw [show (l.map (fun p => p.2 - paidFrom ts p.1))
      = l.map (fun p => Prod.snd p - (fun q => paidFrom ts q.1) p) from rfl]
  rw [sum_map_sub, sum_paidFrom_eq l hnd ts h]

theorem residualC_eq_sub (ts : List Transfer) (l : List (String × ℚ))
    (hnd : (l.map Prod.fst).Nodup) (h : ∀ t ∈ ts, t.tto ∈ l.map Prod.fst) :
    residualC ts l = amountSum l - (ts.map Transfer.amount).sum := by
  unfold residualC amountSum
  rw [show (l.map (fun p => p.2 - paidTo ts p.1))
      = l.map (fun p => Prod.snd p - (fun q => paidTo ts q.1) p) from rfl]
  rw [sum_map_sub, sum_paidTo_eq l hnd ts h]

/-- C2 (amended): for a balance map with pairwise-distinct member keys, exact
cent balances, and a total that rounds to zero, replaying every transfer
suggested by `suggestTransfers` leaves every member within `n` cents of zero,
where `n` is the number of balance entries. The spec's per-member 0.01 bound
fails (see the counterexample): the strict `> 0.01` / `< -0.01` entry tests and
the `<= 0.01` advance rule each forgive up to one cent per entry, and those
cents can concentrate on a single member. -/
theorem settlement_replay_bound (bs : List (String × ℚ))
    (hnd : (bs.map Prod.fst).Nodup)
    (hc : ∀ p ∈ bs, isCent p.2)
    (hz : round2 ((bs.map Prod.snd).sum) = 0) :
    ∀ p ∈ bs, |replayedBalance bs p.1| ≤ (bs.length : ℚ) * (1/100) := by
  have hts : suggestTransfers bs = greedyLoop (sortDescAmount (debtorsOf bs)) (sortDescAmount (creditorsOf bs)) := rfl
  have htot : (bs.map Prod.snd).sum = 0 := by
    have hcent : isCent ((bs.map Prod.snd).sum) := by
      apply isCent_sum
      intro x hx
      rcases List.mem_map.1 hx with ⟨q, hq, rfl⟩
      exact hc q hq
    rw [← round2_of_isCent hcent, hz]
  have hDperm := sortDescAmount_perm (debtorsOf bs)
  have hCperm := sortDescAmount_perm (creditorsOf bs)
  have hDfacts : ∀ q ∈ debtorsOf bs, isCent q.2 ∧ 1/100 < q.2 := by
    intro q hq
    rcases mem_debtorsOf.1 hq with ⟨r, hr, hcond, rfl⟩
    constructor
    · show isCent (-(round2 r.2))
      exact isCent_neg (isCent_round2 _)
    · show 1/100 < -(round2 r.2)
      linarith
  have hCfacts : ∀ q ∈ creditorsOf bs, isCent q.2 ∧ 1/100 < q.2 := by
    intro q hq
    rcases mem_creditorsOf.1 hq with ⟨r, hr, hcond, rfl⟩
    constructor
    · show isCent (round2 r.2)
      exact isCent_round2 _
    · show 1/100 < round2 r.2
      exact hcond
  have hDsfacts : ∀ q ∈ sortDescAmount (debtorsOf bs), isCent q.2 ∧ 1/100 < q.2 :=
    fun q hq => hDfacts q (hDperm.subset hq)
  have hCsfacts : ∀ q ∈ sortDescAmount (creditorsOf bs), isCent q.2 ∧ 1/100 < q.2 :=
    fun q hq => hCfacts q (hCperm.subset hq)
  have hndDC := ids_deb_cred_nodup hnd
  have hpermIds : ((sortDescAmount (debtorsOf bs)).map Prod.fst ++ (sortDescAmount (creditorsOf bs)).map Prod.fst).Perm
      ((debtorsOf bs).map Prod.fst ++ (creditorsOf bs).map Prod.fst) :=
    List.Perm.append (hDperm.map Prod.fst) (hCperm.map Prod.fst)
  have hndDCs : ((sortDescAmount (debtorsOf bs)).map Prod.fst ++ (sortDescAmount (creditorsOf bs)).map Prod.fst).Nodup :=
    hpermIds.nodup_iff.2 hndDC
  obtain ⟨G1, G2, G3, G4⟩ := greedyLoop_spec (sortDescAmount (debtorsOf bs)) (sortDescAmount (creditorsOf bs))
    (fun q hq => (hDsfacts q hq).1) (fun q hq => (hDsfacts q hq).2)
    (fun q hq => (hCsfacts q hq).1) (fun q hq => (hCsfacts q hq).2) hndDCs
  have hndDs : ((sortDescAmount (debtorsOf bs)).map Prod.fst).Nodup := (List.nodup_append.1 hndDCs).1
  have hndCs : ((sortDescAmount (creditorsOf bs)).map Prod.fst).Nodup := (List.nodup_append.1 hndDCs).2.1
  have hdisj : ((sortDescAmount (debtorsOf bs)).map Prod.fst).Disjoint ((sortDescAmount (creditorsOf bs)).map Prod.fst) :=
    (List.nodup_append.1 hndDCs).2.2
  have hresD := residualD_eq_sub (greedyLoop (sortDescAmount (debtorsOf bs)) (sortDescAmount (creditorsOf bs))) (sortDescAmount (debtorsOf bs)) hndDs (fun t ht => (G1 t ht).1)
  have hresC := residualC_eq_sub (greedyLoop (sortDescAmount (debtorsOf bs)) (sortDescAmount (creditorsOf bs))) (sortDescAmount (creditorsOf bs)) hndCs (fun t ht => (G1 t ht).2.1)
  have hsumD : amountSum (sortDescAmount (debtorsOf bs)) = amountSum (debtorsOf bs) := by
    unfold amountSum
    exact (hDperm.map Prod.snd).sum_eq
  have hsumC : amountSum (sortDescAmount (creditorsOf bs)) = amountSum (creditorsOf bs) := by
    unfold amountSum
    exact (hCperm.map Prod.snd).sum_eq
  have hlenDq : ((sortDescAmount (debtorsOf bs)).length : ℚ) = ((debtorsOf bs).length : ℚ) := by
    exact_mod_cast hDperm.length_eq
  have hlenCq : ((sortDescAmount (creditorsOf bs)).length : ℚ) = ((creditorsOf bs).length : ℚ) := by
    exact_mod_cast hCperm.length_eq
  obtain ⟨hpart, hcnt⟩ := partition_bs bs hc
  rw [htot] at hpart
  have hSb : |amountSum (settledOf bs)| ≤ ((settledOf bs).length : ℚ) * (1/100) :=
    abs_sum_map_le (settledOf bs) Prod.snd (1/100) (settled_abs_le bs hc)
  have hcntq : ((creditorsOf bs).length : ℚ) + ((debtorsOf bs).length : ℚ)
      + ((settledOf bs).length : ℚ) = (bs.length : ℚ) := by
    exact_mod_cast hcnt
  have hlink : residualC (greedyLoop (sortDescAmount (debtorsOf bs)) (sortDescAmount (creditorsOf bs))) (sortDescAmount (creditorsOf bs))
      = residualD (greedyLoop (sortDescAmount (debtorsOf bs)) (sortDescAmount (creditorsOf bs))) (sortDescAmount (debtorsOf bs))
        + (amountSum (creditorsOf bs) - amountSum (debtorsOf bs)) := by
    rw [hresD, hresC, hsumD, hsumC]
    ring
  have hD0 : (0:ℚ) ≤ ((debtorsOf bs).length : ℚ) := Nat.cast_nonneg _
  have hC0 : (0:ℚ) ≤ ((creditorsOf bs).length : ℚ) := Nat.cast_nonneg _
  have hS0 : (0:ℚ) ≤ ((settledOf bs).length : ℚ) := Nat.cast_nonneg _
  have hSabs := abs_le.1 hSb
  have hboth : residualD (greedyLoop (sortDescAmount (debtorsOf bs)) (sortDescAmount (creditorsOf bs))) (sortDescAmount (debtorsOf bs)) ≤ (bs.length : ℚ) * (1/100) ∧
      residualC (greedyLoop (sortDescAmount (debtorsOf bs)) (sortDescAmount (creditorsOf bs))) (sortDescAmount (creditorsOf bs)) ≤ (bs.length : ℚ) * (1/100) := by
    rcases G4 with hG | hG
    · rw [hlenDq] at hG
      constructor
      · linarith
      · linarith [hSabs.1, hSabs.2]
    · rw [hlenCq] at hG
      constructor
      · linarith [hSabs.1, hSabs.2]
      · linarith
  intro p hp
  have hval : alGet bs p.1 = p.2 := alGet_of_mem_nodup hnd hp
  have hcp : round2 p.2 = p.2 := round2_of_isCent (hc p hp)
  have hrepl : replayedBalance bs p.1
      = p.2 + paidFrom (greedyLoop (sortDescAmount (debtorsOf bs)) (sortDescAmount (creditorsOf bs))) p.1 - paidTo (greedyLoop (sortDescAmount (debtorsOf bs)) (sortDescAmount (creditorsOf bs))) p.1 := by
    rw [replayedBalance, hval, hts]
  by_cases h1 : 1/100 < p.2
  · have hqC : (p.1, p.2) ∈ creditorsOf bs :=
      mem_creditorsOf.2 ⟨p, hp, by rw [hcp]; exact h1, by rw [hcp]⟩
    have hqCs : (p.1, p.2) ∈ sortDescAmount (creditorsOf bs) := hCperm.mem_iff.2 hqC
    have hmemIds : p.1 ∈ (sortDescAmount (creditorsOf bs)).map Prod.fst := List.mem_map_of_mem Prod.fst hqCs
    have hfrom0 : paidFrom (greedyLoop (sortDescAmount (debtorsOf bs)) (sortDescAmount (creditorsOf bs))) p.1 = 0 :=
      paidFrom_eq_zero (fun t ht he => hdisj (he ▸ (G1 t ht).1) hmemIds)
    have hG3 := G3 (p.1, p.2) hqCs
    dsimp only at hG3
    have hsingle : p.2 - paidTo (greedyLoop (sortDescAmount (debtorsOf bs)) (sortDescAmount (creditorsOf bs))) p.1 ≤ residualC (greedyLoop (sortDescAmount (debtorsOf bs)) (sortDescAmount (creditorsOf bs))) (sortDescAmount (creditorsOf bs)) := by
      have hstep := single_le_sum_map (sortDescAmount (creditorsOf bs))
        (fun q => q.2 - paidTo (greedyLoop (sortDescAmount (debtorsOf bs)) (sortDescAmount (creditorsOf bs))) q.1) (p.1, p.2) hqCs
        (fun q hq => by
          show 0 ≤ q.2 - paidTo (greedyLoop (sortDescAmount (debtorsOf bs)) (sortDescAmount (creditorsOf bs))) q.1
          linarith [(G3 q hq).2])
      dsimp only at hstep
      exact hstep
    rw [hrepl, hfrom0]
    rw [abs_of_nonneg (show (0:ℚ) ≤ p.2 + 0 - paidTo (greedyLoop (sortDescAmount (debtorsOf bs)) (sortDescAmount (creditorsOf bs))) p.1 by linarith [hG3.2])]
    linarith [hboth.2, hsingle]
  · by_cases h2 : p.2 < -(1/100)
    · have hqD : (p.1, -p.2) ∈ debtorsOf bs :=
        mem_debtorsOf.2 ⟨p, hp, by rw [hcp]; exact h2, by rw [hcp]⟩
      have hqDs : (p.1, -p.2) ∈ sortDescAmount (debtorsOf bs) := hDperm.mem_iff.2 hqD
      have hmemIds : p.1 ∈ (sortDescAmount (debtorsOf bs)).map Prod.fst :=
        List.mem_map.2 ⟨(p.1, -p.2), hqDs, rfl⟩
      have hto0 : paidTo (greedyLoop (sortDescAmount (debtorsOf bs)) (sortDescAmount (creditorsOf bs))) p.1 = 0 :=
        paidTo_eq_zero (fun t ht he => hdisj hmemIds (he ▸ (G1 t ht).2.1))
      have hG2 := G2 (p.1, -p.2) hqDs
      dsimp only at hG2
      have hsingle : -p.2 - paidFrom (greedyLoop (sortDescAmount (debtorsOf bs)) (sortDescAmount (creditorsOf bs))) p.1 ≤ residualD (greedyLoop (sortDescAmount (debtorsOf bs)) (sortDescAmount (creditorsOf bs))) (sortDescAmount (debtorsOf bs)) := by
        have hstep := single_le_sum_map (sortDescAmount (debtorsOf bs))
          (fun q => q.2 - paidFrom (greedyLoop (sortDescAmount (debtorsOf bs)) (sortDescAmount (creditorsOf bs))) q.1) (p.1, -p.2) hqDs
          (fun q hq => by
            show 0 ≤ q.2 - paidFrom (greedyLoop (sortDescAmount (debtorsOf bs)) (sortDescAmount (creditorsOf bs))) q.1
            linarith [(G2 q hq).2])
        dsimp only at hstep
        exact hstep
      rw [hrepl, hto0]
      rw [abs_of_nonpos (show p.2 + paidFrom (greedyLoop (sortDescAmount (debtorsOf bs)) (sortDescAmount (creditorsOf bs))) p.1 - 0 ≤ 0 by linarith [hG2.2])]
      linarith [hboth.1, hsingle]
    · have hnotC : p.1 ∉ (creditorsOf bs).map Prod.fst := by
        intro hk
        rcases List.mem_map.1 hk with ⟨q, hq, hqk⟩
        rcases mem_creditorsOf.1 hq with ⟨r, hr, hcond, hqe⟩
        have hr1 : r.1 = p.1 := by
          rw [hqe] at hqk
          exact hqk
        have hre : r = p := nodup_key_eq hnd hr hp hr1
        rw [hre, hcp] at hcond
        exact h1 hcond
      have hnotD : p.1 ∉ (debtorsOf bs).map Prod.fst := by
        intro hk
        rcases List.mem_map.1 hk with ⟨q, hq, hqk⟩
        rcases mem_debtorsOf.1 hq with ⟨r, hr, hcond, hqe⟩
        have hr1 : r.1 = p.1 := by
          rw [hqe] at hqk
          exact hqk
        have hre : r = p := nodup_key_eq hnd hr hp hr1
        rw [hre, hcp] at hcond
        exact h2 hcond
      have hnotCs : p.1 ∉ (sortDescAmount (creditorsOf bs)).map Prod.fst :=
        fun hk => hnotC (((hCperm.map Prod.fst).mem_iff).1 hk)
      have hnotDs : p.1 ∉ (sortDescAmount (debtorsOf bs)).map Prod.fst :=
        fun hk => hnotD (((hDperm.map Prod.fst).mem_iff).1 hk)
      have hfrom0 : paidFrom (greedyLoop (sortDescAmount (debtorsOf bs)) (sortDescAmount (creditorsOf bs))) p.1 = 0 :=
        paidFrom_eq_zero (fun t ht he => hnotDs (he ▸ (G1 t ht).1))
      have hto0 : paidTo (greedyLoop (sortDescAmount (debtorsOf bs)) (sortDescAmount (creditorsOf bs))) p.1 = 0 :=
        paidTo_eq_zero (fun t ht he => hnotCs (he ▸ (G1 t ht).2.1))
      rw [hrepl, hfrom0, hto0]
      have hlen1 : 1 ≤ (bs.length : ℚ) := by
        have := List.length_pos_of_mem hp
        exact_mod_cast this
      have habs : |p.2| ≤ 1/100 :=
        abs_le.2 ⟨by linarith [not_lt.1 h2], by linarith [not_lt.1 h1]⟩
      rw [show p.2 + 0 - 0 = p.2 by ring]
      linarith [habs, hlen1]

/-- C2 witness: on balances (+0.03, -0.03) the amended replay bound holds with
all hypotheses discharged concretely. -/
theorem settlement_replay_bound_witness :
    (([("a", (3:ℚ)/100), ("b", -(3/100))].map Prod.fst).Nodup) ∧
    (∀ p ∈ [("a", (3:ℚ)/100), ("b", -(3/100))], isCent p.2) ∧
    round2 (([("a", (3:ℚ)/100), ("b", -(3/100))].map Prod.snd).sum) = 0 ∧
    ∀ p ∈ [("a", (3:ℚ)/100), ("b", -(3/100))],
      |replayedBalance [("a", (3:ℚ)/100), ("b", -(3/100))] p.1|
        ≤ (([("a", (3:ℚ)/100), ("b", -(3/100))] : List (String × ℚ)).length : ℚ) * (1/100) := by
  have h1 : (([("a", (3:ℚ)/100), ("b", -(3/100))].map Prod.fst).Nodup) := by
    decide
  have h2 : ∀ p ∈ [("a", (3:ℚ)/100), ("b", -(3/100))], isCent p.2 := by
    intro p hp
    rcases List.mem_cons.1 hp with h | hp2
    · rw [h]
      exact ⟨3, by norm_num⟩
    · rcases List.mem_cons.1 hp2 with h | hp3
      · rw [h]
        exact ⟨-3, by norm_num⟩
      · exact absurd hp3 (List.not_mem_nil p)
  have h3 : round2 (([("a", (3:ℚ)/100), ("b", -(3/100))].map Prod.snd).sum) = 0 := by
    norm_num [round2]
  exact ⟨h1, h2, h3, settlement_replay_bound _ h1 h2 h3⟩
